import Mathlib

/-!
Verification of the linger-core interpreter against its specification.

The development shallowly embeds the Rust sources of the repository:

* `Linger` — the current ("float-number") generation of the code base:
  `src/environment.rs`, `src/interpreter/statements.rs`,
  `src/interpreter/expressions.rs`, `src/interpreter/utils.rs`, together
  with the core AST (`desugar::Statement` / `desugar::Expr`) and value type
  (`interpreter::Value`) whose declaration file is not present under `src/`
  but whose constructors are completely pinned down by their uses in those
  files.  Machine `f64` numbers are modelled by the extended-rational type
  `EF` (finite rational, +inf, -inf, NaN): finite arithmetic is exact (all
  programs appearing in the claims compute only with small integers, on
  which binary64 arithmetic is exact) and the infinity/NaN propagation and
  division-by-zero cases follow IEEE-754.  Rust `HashMap`s are modelled by
  association lists with insert-replace semantics; the side-effecting
  `&mut Environment` style of the interpreter becomes explicit state
  passing; Rust `Result` becomes `Except`/`Res`, and the non-terminating
  `while`/call recursion is bounded by an explicit fuel parameter
  (`Res.nofuel` reports fuel exhaustion, which the Rust code cannot
  observe).  The text written by `print` goes to an output sink that no
  claim observes, so it is not threaded through the model; `print`'s
  argument evaluation (and hence its effect on the environment) is.
  Error payloads that the Rust code renders through `to_string()` are
  modelled by carrying the offending `Value` itself; no claim depends on
  the rendered text.

* `LingerV1` — the older ("integer-number") generation:
  `src/desugar.rs` (the `for`-desugaring cited by the claims) and the
  `Operator::Div` / `Operator::Mod` arms of `interp_expression` in
  `src/interpreter.rs`, where `i64` division by zero is a host panic.

* `LingerParse` — the call-site builtin recognition of the current parser:
  `check_builtin` from `src/parser/utils.rs` and the call-node construction
  step of `parse_call_expr` from `src/parser/expressions.rs`.
-/

namespace Linger

/-- Operators, from `tokenizer.rs` (`pub enum Operator`). -/
inductive Operator : Type where
  | Plus
  | Minus
  | Times
  | Eq
  | Ne
  | LT
  | GT
  | LTE
  | GTE
  | Mod
  | Div
  | LogicOr
  | LogicAnd
  | LogicNot
  | PreIncrement
  | PostIncrement
  | PreDecrement
  | PostDecrement
deriving DecidableEq, Repr

/-- Write-provenance tag, from `environment.rs` (`pub enum AssignmentType`). -/
inductive AssignmentType : Type where
  | Initialized
  | Reassigned
deriving DecidableEq, Repr

/-- Mutability tag, from `environment.rs` (`pub enum Mutability`). -/
inductive Mutability : Type where
  | Constant
  | Mutable
deriving DecidableEq, Repr

/-- Builtin procedures.  The declaration file of the current generation's
`parser::Builtin` is not present under `src/`, but the six constructors are
pinned down by the exhaustive `match` on `crate::parser::Builtin` in
`src/interpreter/expressions.rs` (`Print`, `List`, `IsEmpty`, `IsNil`,
`Head`, `Rest`). -/
inductive Builtin : Type where
  | Print
  | BList
  | IsEmpty
  | IsNil
  | Head
  | Rest
deriving DecidableEq, Repr

/-- Control-flow outcome of a statement, from `interpreter/statements.rs`
(`pub enum ControlFlow`). -/
inductive ControlFlow : Type where
  | Return
  | Normal
  | Break
  | Continue
deriving DecidableEq, Repr

/-! ### An extended-rational model of `f64`

`EF` models the IEEE-754 binary64 numbers of the Rust code: a finite value
(idealized as an exact rational — exact for the integer-valued computations
all claims rely on), the two infinities, and NaN.  The operation tables
follow IEEE-754 semantics for special values; in particular division of a
finite nonzero value by zero gives a signed infinity, `0/0` gives NaN, and
the Rust `%` on floats (`fmod`) of anything by zero gives NaN. -/

inductive EF : Type where
  | Finite (q : ℚ)
  | PInf
  | NInf
  | NaN
deriving DecidableEq, Repr

/-- Truncation of a rational toward zero (the rounding used by Rust's
`f64::fract` and the `as i64` cast). -/
def ratTrunc (q : ℚ) : ℤ := q.num.tdiv q.den

def efNeg : EF → EF
  | .Finite a => .Finite (-a)
  | .PInf => .NInf
  | .NInf => .PInf
  | .NaN => .NaN

def efAdd : EF → EF → EF
  | .NaN, _ => .NaN
  | _, .NaN => .NaN
  | .Finite a, .Finite b => .Finite (a + b)
  | .Finite _, .PInf => .PInf
  | .Finite _, .NInf => .NInf
  | .PInf, .Finite _ => .PInf
  | .NInf, .Finite _ => .NInf
  | .PInf, .PInf => .PInf
  | .NInf, .NInf => .NInf
  | .PInf, .NInf => .NaN
  | .NInf, .PInf => .NaN

def efSub (a b : EF) : EF := efAdd a (efNeg b)

def efMul : EF → EF → EF
  | .NaN, _ => .NaN
  | _, .NaN => .NaN
  | .Finite a, .Finite b => .Finite (a * b)
  | .Finite a, .PInf => if a = 0 then .NaN else if 0 < a then .PInf else .NInf
  | .Finite a, .NInf => if a = 0 then .NaN else if 0 < a then .NInf else .PInf
  | .PInf, .Finite b => if b = 0 then .NaN else if 0 < b then .PInf else .NInf
  | .NInf, .Finite b => if b = 0 then .NaN else if 0 < b then .NInf else .PInf
  | .PInf, .PInf => .PInf
  | .PInf, .NInf => .NInf
  | .NInf, .PInf => .NInf
  | .NInf, .NInf => .PInf

def efDiv : EF → EF → EF
  | .NaN, _ => .NaN
  | _, .NaN => .NaN
  | .Finite a, .Finite b =>
      if b = 0 then
        if a = 0 then .NaN else if 0 < a then .PInf else .NInf
      else .Finite (a / b)
  | .Finite _, .PInf => .Finite 0
  | .Finite _, .NInf => .Finite 0
  | .PInf, .Finite b => if 0 ≤ b then .PInf else .NInf
  | .NInf, .Finite b => if 0 ≤ b then .NInf else .PInf
  | .PInf, .PInf => .NaN
  | .PInf, .NInf => .NaN
  | .NInf, .PInf => .NaN
  | .NInf, .NInf => .NaN

/-- Rust `%` on `f64` (truncated remainder, `fmod`): the remainder of
anything by zero, and of an infinity by anything, is NaN. -/
def efMod : EF → EF → EF
  | .NaN, _ => .NaN
  | _, .NaN => .NaN
  | .Finite a, .Finite b =>
      if b = 0 then .NaN else .Finite (a - b * (ratTrunc (a / b) : ℚ))
  | .Finite a, .PInf => .Finite a
  | .Finite a, .NInf => .Finite a
  | .PInf, _ => .NaN
  | .NInf, _ => .NaN

def efEq : EF → EF → Bool
  | .Finite a, .Finite b => decide (a = b)
  | .PInf, .PInf => true
  | .NInf, .NInf => true
  | _, _ => false

def efNe (a b : EF) : Bool := !efEq a b

def efLt : EF → EF → Bool
  | .Finite a, .Finite b => decide (a < b)
  | .Finite _, .PInf => true
  | .NInf, .Finite _ => true
  | .NInf, .PInf => true
  | _, _ => false

def efGt (a b : EF) : Bool := efLt b a

def efLe : EF → EF → Bool
  | .Finite a, .Finite b => decide (a ≤ b)
  | .Finite _, .PInf => true
  | .NInf, .Finite _ => true
  | .NInf, .PInf => true
  | .PInf, .PInf => true
  | .NInf, .NInf => true
  | _, _ => false

def efGe (a b : EF) : Bool := efLe b a

/-- Rust `f64::fract`: `self - self.trunc()`; NaN for infinities and NaN. -/
def efFract : EF → EF
  | .Finite q => .Finite (q - (ratTrunc q : ℚ))
  | .PInf => .NaN
  | .NInf => .NaN
  | .NaN => .NaN

/-- Rust saturating cast `as i64`. -/
def efToI64 : EF → ℤ
  | .Finite q => max (-(2 ^ 63)) (min (2 ^ 63 - 1) (ratTrunc q))
  | .PInf => 2 ^ 63 - 1
  | .NInf => -(2 ^ 63)
  | .NaN => 0

/-! ### The core AST

The current generation's `desugar::Statement` / `desugar::Expr` declaration
file is not present under `src/`; the constructors below are pinned down by
the exhaustive matches in `src/interpreter/statements.rs` and
`src/interpreter/expressions.rs`. -/

mutual

inductive Statement : Type where
  | SExpr (e : Expr)
  | SLet (id : String) (e : Expr)
  | SConst (id : String) (e : Expr)
  | Assign (id : String) (e : Expr)
  | If (cond : Expr) (thenS : Statement) (elseS : Option Statement)
  | While (cond : Expr) (body : Statement)
  | Return (e : Option Expr)
  | Break
  | Continue
  | Block (stmts : List Statement)

inductive Expr : Type where
  | ENil
  | Num (n : EF)
  | EBool (b : Bool)
  | Str (s : String)
  | Var (id : String)
  | Binary (op : Operator) (left : Expr) (right : Expr)
  | Unary (op : Operator) (operand : Expr)
  | Call (f : Expr) (args : List Expr)
  | PrimitiveCall (b : Builtin) (args : List Expr)
  | Lambda (params : List String) (body : Statement)
  | Index (base : Expr) (idx : Expr)

end

/-! ### Values and environments

`interpreter::Value` (pinned by its uses) and `environment.rs`'s
`Environment { top_level_procedures, values }`.  The two `HashMap`s become
association lists; `insert` replaces the first binding of the key in place
or appends a fresh binding. -/

mutual

inductive Value : Type where
  | Num (n : EF)
  | VBool (b : Bool)
  | Str (s : String)
  | VList (elems : List Value)
  | Proc (params : List String) (body : Statement) (env : Environment)
  | Nil

inductive Environment : Type where
  | mk (topLevelProcedures : List (String × List String × Statement))
       (values : List (String × Value × AssignmentType × Mutability))

end

/-- An environment entry: `pub type Entry = (Value, AssignmentType, Mutability)`. -/
abbrev Entry : Type := Value × AssignmentType × Mutability

def Environment.topLevelProcedures : Environment → List (String × List String × Statement)
  | .mk t _ => t

def Environment.values : Environment → List (String × Entry)
  | .mk _ v => v

/-- First-match lookup in an association list (`HashMap::get`). -/
def lookupA {α : Type} : List (String × α) → String → Option α
  | [], _ => none
  | (k, a) :: rest, key => if k = key then some a else lookupA rest key

/-- Insert-replace in an association list (`HashMap::insert`): replace the
first binding of the key in place, or append a fresh binding. -/
def insertA {α : Type} : List (String × α) → String → α → List (String × α)
  | [], key, a => [(key, a)]
  | (k, b) :: rest, key, a =>
      if k = key then (key, a) :: rest else (k, b) :: insertA rest key a

/-- Runtime errors, from `error.rs` (`pub enum RuntimeError`), in the shape
used by the current interpreter: `ExpectedInteger` / `NotIndexable` /
`ExpectedList` carry the offending value (the Rust code carries its
`to_string()` rendering; the text itself matters to no claim). -/
inductive RuntimeError : Type where
  | UnknownVariable (id : String)
  | BadArg (v : Value)
  | BadArgs (vs : List Value)
  | ArgMismatch (procName : String) (expected : Nat) (actual : Nat)
  | ExpectedBool (v : Value)
  | ExpectedInteger (v : Value)
  | ExpectedList (v : Value)
  | BinaryAsUnary (op : Operator)
  | UnaryAsBinary (op : Operator)
  | BreakNotInLoop
  | ContinueNotInLoop
  | InvalidAssignmentTarget
  | ReassignConstant (id : String)
  | ReassignTopLevelProc (id : String)
  | NotIndexable (v : Value)
  | IndexOutOfBounds (index : ℤ)

/-- Result of an interpreter step: success, runtime error, or fuel
exhaustion (an artifact of the bounded model, not of the Rust code). -/
inductive Res (α : Type) : Type where
  | ok (a : α)
  | err (e : RuntimeError)
  | nofuel

/-! ### Environment operations, from `environment.rs` -/

/-- `Environment::new`. -/
def Environment.new (procedures : List (String × List String × Statement)) : Environment :=
  .mk procedures []

/-- `Environment::get`: a value binding wins over a top-level procedure; a
top-level procedure is returned as a `Proc` value capturing `self.clone()`,
i.e. the whole environment performing the lookup. -/
def Environment.get (env : Environment) (key : String) : Except RuntimeError Value :=
  match lookupA env.values key with
  | some (v, _, _) => .ok v
  | none =>
      match lookupA env.topLevelProcedures key with
      | some (params, body) => .ok (.Proc params body env)
      | none => .error (.UnknownVariable key)

/-- `Environment::extend`. -/
def Environment.extend (env : Environment) (bindings : List (String × Entry)) : Environment :=
  match bindings with
  | [] => env
  | (k, e) :: rest =>
      Environment.extend (.mk env.topLevelProcedures (insertA env.values k e)) rest

/-- `Environment::insert_new_mutable_value`. -/
def Environment.insertNewMutableValue (env : Environment) (key : String) (v : Value) :
    Environment :=
  .mk env.topLevelProcedures (insertA env.values key (v, .Initialized, .Mutable))

/-- `Environment::insert_new_constant_value`. -/
def Environment.insertNewConstantValue (env : Environment) (key : String) (v : Value) :
    Environment :=
  .mk env.topLevelProcedures (insertA env.values key (v, .Initialized, .Constant))

/-- `Environment::reassign`. -/
def Environment.reassign (env : Environment) (key : String) (v : Value) :
    Except RuntimeError Environment :=
  match lookupA env.values key with
  | some (_, _, .Mutable) =>
      .ok (.mk env.topLevelProcedures (insertA env.values key (v, .Reassigned, .Mutable)))
  | some (_, _, .Constant) => .error (.ReassignConstant key)
  | none =>
      match lookupA env.topLevelProcedures key with
      | some _ => .error (.ReassignTopLevelProc key)
      | none => .error (.UnknownVariable key)

/-- `Environment::bindings`. -/
def Environment.bindings (env : Environment) : List (String × Entry) := env.values

/-- `Environment::contains_key`. -/
def Environment.containsKey (env : Environment) (key : String) : Bool :=
  (lookupA env.values key).isSome

/-- The loop body of `Environment::update_reassigned_entries`: for each
binding of the other environment, if this environment already has the name
and the binding is marked `Reassigned`, reassign it here (`?`-propagating a
failed reassignment). -/
def updateEntriesAux (parent : Environment) :
    List (String × Entry) → Except RuntimeError Environment
  | [] => .ok parent
  | (id, v, assignmentType, _) :: rest =>
      match assignmentType, parent.containsKey id with
      | .Reassigned, true =>
          match parent.reassign id v with
          | .ok parent' => updateEntriesAux parent' rest
          | .error e => .error e
      | _, _ => updateEntriesAux parent rest

/-- `Environment::update_reassigned_entries`. -/
def Environment.updateReassignedEntries (parent other : Environment) :
    Except RuntimeError Environment :=
  updateEntriesAux parent other.bindings

/-! ### Auxiliary interpreter helpers, from `interpreter/utils.rs` -/

/-- `ensure_single_arg`. -/
def ensureSingleArg (args : List Expr) : Except RuntimeError Expr :=
  if args.length > 1 then .error (.ArgMismatch "is_empty" args.length 1)
  else
    match args.head? with
    | some arg => .ok arg
    | none => .error (.ArgMismatch "is_empty" 0 1)

/-- `ensure_list`. -/
def ensureList (v : Value) : Except RuntimeError (List Value) :=
  match v with
  | .VList l => .ok l
  | bad => .error (.ExpectedList bad)

/-- The `f_name` computed at the top of the `Expr::Call` arm of
`interp_expression`: the variable's name for a direct-name call, the fixed
placeholder otherwise. -/
def calleeName : Expr → String
  | .Var id => id
  | _ => "<lambda>"

/-- The value-level dispatch inside each binary-operator arm of
`interp_expression` (`interpreter/expressions.rs`), applied after both
operands have been evaluated left-to-right.  The short-circuit arms
(`LogicOr`/`LogicAnd`) and the unary-operator catch-all never reach this
function; they are handled before operand evaluation. -/
def binaryArm (op : Operator) (v₁ v₂ : Value) : Except RuntimeError Value :=
  match op with
  | .Plus =>
      match v₁, v₂ with
      | .Num a, .Num b => .ok (.Num (efAdd a b))
      | .Str a, .Str b => .ok (.Str (a ++ b))
      | .VList a, .VList b => .ok (.VList (a ++ b))
      | .Num _, v => .error (.BadArg v)
      | v, _ => .error (.BadArg v)
  | .Minus =>
      match v₁, v₂ with
      | .Num a, .Num b => .ok (.Num (efSub a b))
      | .Num _, v => .error (.BadArg v)
      | v, _ => .error (.BadArg v)
  | .Eq =>
      match v₁, v₂ with
      | .Num a, .Num b => .ok (.VBool (efEq a b))
      | .VBool a, .VBool b => .ok (.VBool (a == b))
      | a, b => .error (.BadArgs [a, b])
  | .Ne =>
      match v₁, v₂ with
      | .Num a, .Num b => .ok (.VBool (efNe a b))
      | .VBool a, .VBool b => .ok (.VBool (a != b))
      | a, b => .error (.BadArgs [a, b])
  | .LT =>
      match v₁, v₂ with
      | .Num a, .Num b => .ok (.VBool (efLt a b))
      | a, b => .error (.BadArgs [a, b])
  | .GT =>
      match v₁, v₂ with
      | .Num a, .Num b => .ok (.VBool (efGt a b))
      | a, b => .error (.BadArgs [a, b])
  | .LTE =>
      match v₁, v₂ with
      | .Num a, .Num b => .ok (.VBool (efLe a b))
      | a, b => .error (.BadArgs [a, b])
  | .GTE =>
      match v₁, v₂ with
      | .Num a, .Num b => .ok (.VBool (efGe a b))
      | a, b => .error (.BadArgs [a, b])
  | .Times =>
      match v₁, v₂ with
      | .Num a, .Num b => .ok (.Num (efMul a b))
      | a, b => .error (.BadArgs [a, b])
  | .Mod =>
      match v₁, v₂ with
      | .Num a, .Num b => .ok (.Num (efMod a b))
      | a, b => .error (.BadArgs [a, b])
  | .Div =>
      match v₁, v₂ with
      | .Num a, .Num b => .ok (.Num (efDiv a b))
      | a, b => .error (.BadArgs [a, b])
  | op => .error (.UnaryAsBinary op)

/-! ### The interpreter

`interp_statement` (`interpreter/statements.rs`) and `interp_expression`
(`interpreter/expressions.rs`), as one fuel-indexed bundle.  Each level of
`interpGo` performs one layer of recursion; all recursive calls (into
sub-statements, sub-expressions, loop iterations and procedure bodies) go
through the previous level, so any terminating Rust execution is reproduced
exactly by every sufficiently large fuel. -/

structure InterpFns : Type where
  stmt : Environment → Statement → Bool → Res (Environment × Value × ControlFlow)
  stmtSeq : Environment → Value → List Statement → Bool → Res (Environment × Value × ControlFlow)
  expr : Environment → Expr → Res (Environment × Value)
  exprList : Environment → List Expr → Res (Environment × List Value)

def interpGo : Nat → InterpFns
  | 0 =>
    { stmt := fun _ _ _ => .nofuel
      stmtSeq := fun _ _ _ _ => .nofuel
      expr := fun _ _ => .nofuel
      exprList := fun _ _ => .nofuel }
  | n + 1 =>
    let I := interpGo n
    { stmt := fun env s inLoop =>
        match s with
        | .SExpr e =>
            match I.expr env e with
            | .ok (env₁, v) => .ok (env₁, v, .Normal)
            | .err e => .err e
            | .nofuel => .nofuel
        | .SLet id e =>
            match I.expr env e with
            | .ok (env₁, v) => .ok (env₁.insertNewMutableValue id v, .Nil, .Normal)
            | .err e => .err e
            | .nofuel => .nofuel
        | .SConst id e =>
            match I.expr env e with
            | .ok (env₁, v) => .ok (env₁.insertNewConstantValue id v, .Nil, .Normal)
            | .err e => .err e
            | .nofuel => .nofuel
        | .Assign id e =>
            match I.expr env e with
            | .ok (env₁, v) =>
                match env₁.reassign id v with
                | .ok env₂ => .ok (env₂, .Nil, .Normal)
                | .error er => .err er
            | .err er => .err er
            | .nofuel => .nofuel
        | .If cond thenS elseS =>
            match I.expr env cond with
            | .ok (env₁, .VBool b) =>
                if b then I.stmt env₁ thenS inLoop
                else
                  match elseS with
                  | some s' => I.stmt env₁ s' inLoop
                  | none => .ok (env₁, .Nil, .Normal)
            | .ok (_, v) => .err (.BadArg v)
            | .err er => .err er
            | .nofuel => .nofuel
        | .While cond body =>
            match I.expr env cond with
            | .ok (env₁, .VBool true) =>
                match I.stmt env₁ body true with
                | .ok (env₂, v, .Return) => .ok (env₂, v, .Return)
                | .ok (env₂, _, .Break) => .ok (env₂, .Nil, .Normal)
                | .ok (env₂, _, _) => I.stmt env₂ (.While cond body) inLoop
                | .err er => .err er
                | .nofuel => .nofuel
            | .ok (env₁, .VBool false) => .ok (env₁, .Nil, .Normal)
            | .ok (_, v) => .err (.BadArg v)
            | .err er => .err er
            | .nofuel => .nofuel
        | .Return eOpt =>
            match eOpt with
            | some e =>
                match I.expr env e with
                | .ok (env₁, v) => .ok (env₁, v, .Return)
                | .err er => .err er
                | .nofuel => .nofuel
            | none => .ok (env, .Nil, .Return)
        | .Break => .ok (env, .Nil, .Break)
        | .Continue => .ok (env, .Nil, .Continue)
        | .Block stmts =>
            match I.stmtSeq env .Nil stmts inLoop with
            | .ok (blockEnv, v, cf) =>
                match env.updateReassignedEntries blockEnv with
                | .ok env' => .ok (env', v, cf)
                | .error er => .err er
            | .err er => .err er
            | .nofuel => .nofuel
      stmtSeq := fun env blockValue stmts inLoop =>
        match stmts with
        | [] => .ok (env, blockValue, .Normal)
        | s :: rest =>
            match I.stmt env s inLoop with
            | .ok (env₁, v, .Normal) => I.stmtSeq env₁ v rest inLoop
            | .ok (env₁, v, .Return) => .ok (env₁, v, .Return)
            | .ok (env₁, v, .Break) =>
                if inLoop then .ok (env₁, v, .Break) else .err .BreakNotInLoop
            | .ok (env₁, v, .Continue) =>
                if inLoop then .ok (env₁, v, .Continue) else .err .ContinueNotInLoop
            | .err er => .err er
            | .nofuel => .nofuel
      expr := fun env e =>
        match e with
        | .ENil => .ok (env, .Nil)
        | .Num q => .ok (env, .Num q)
        | .EBool b => .ok (env, .VBool b)
        | .Str s => .ok (env, .Str s)
        | .Lambda params body => .ok (env, .Proc params body env)
        | .Var id =>
            match env.get id with
            | .ok v => .ok (env, v)
            | .error er => .err er
        | .Binary op left right =>
            match op with
            | .LogicOr =>
                match I.expr env left with
                | .ok (env₁, .VBool true) => .ok (env₁, .VBool true)
                | .ok (env₁, .VBool false) =>
                    match I.expr env₁ right with
                    | .ok (env₂, .VBool b) => .ok (env₂, .VBool b)
                    | .ok (_, v) => .err (.BadArg v)
                    | .err er => .err er
                    | .nofuel => .nofuel
                | .ok (_, v) => .err (.BadArg v)
                | .err er => .err er
                | .nofuel => .nofuel
            | .LogicAnd =>
                match I.expr env left with
                | .ok (env₁, .VBool false) => .ok (env₁, .VBool false)
                | .ok (env₁, .VBool true) =>
                    match I.expr env₁ right with
                    | .ok (env₂, .VBool b) => .ok (env₂, .VBool b)
                    | .ok (_, v) => .err (.BadArg v)
                    | .err er => .err er
                    | .nofuel => .nofuel
                | .ok (_, v) => .err (.BadArg v)
                | .err er => .err er
                | .nofuel => .nofuel
            | .LogicNot => .err (.UnaryAsBinary .LogicNot)
            | .PreIncrement => .err (.UnaryAsBinary .PreIncrement)
            | .PostIncrement => .err (.UnaryAsBinary .PostIncrement)
            | .PreDecrement => .err (.UnaryAsBinary .PreDecrement)
            | .PostDecrement => .err (.UnaryAsBinary .PostDecrement)
            | op =>
                match I.expr env left with
                | .ok (env₁, v₁) =>
                    match I.expr env₁ right with
                    | .ok (env₂, v₂) =>
                        match binaryArm op v₁ v₂ with
                        | .ok v => .ok (env₂, v)
                        | .error er => .err er
                    | .err er => .err er
                    | .nofuel => .nofuel
                | .err er => .err er
                | .nofuel => .nofuel
        | .Unary op operand =>
            match op with
            | .PreIncrement =>
                match operand with
                | .Var id =>
                    match I.expr env (.Var id) with
                    | .ok (env₁, .Num q) =>
                        match env₁.reassign id (.Num (efAdd q (.Finite 1))) with
                        | .ok env₂ => .ok (env₂, .Num (efAdd q (.Finite 1)))
                        | .error er => .err er
                    | .ok (_, v) => .err (.BadArg v)
                    | .err er => .err er
                    | .nofuel => .nofuel
                | _ => .err .InvalidAssignmentTarget
            | .PostIncrement =>
                match operand with
                | .Var id =>
                    match I.expr env (.Var id) with
                    | .ok (env₁, .Num q) =>
                        match env₁.reassign id (.Num (efAdd q (.Finite 1))) with
                        | .ok env₂ => .ok (env₂, .Num q)
                        | .error er => .err er
                    | .ok (_, v) => .err (.BadArg v)
                    | .err er => .err er
                    | .nofuel => .nofuel
                | _ => .err .InvalidAssignmentTarget
            | .PreDecrement =>
                match operand with
                | .Var id =>
                    match I.expr env (.Var id) with
                    | .ok (env₁, .Num q) =>
                        match env₁.reassign id (.Num (efSub q (.Finite 1))) with
                        | .ok env₂ => .ok (env₂, .Num (efSub q (.Finite 1)))
                        | .error er => .err er
                    | .ok (_, v) => .err (.BadArg v)
                    | .err er => .err er
                    | .nofuel => .nofuel
                | _ => .err .InvalidAssignmentTarget
            | .PostDecrement =>
                match operand with
                | .Var id =>
                    match I.expr env (.Var id) with
                    | .ok (env₁, .Num q) =>
                        match env₁.reassign id (.Num (efSub q (.Finite 1))) with
                        | .ok env₂ => .ok (env₂, .Num q)
                        | .error er => .err er
                    | .ok (_, v) => .err (.BadArg v)
                    | .err er => .err er
                    | .nofuel => .nofuel
                | _ => .err .InvalidAssignmentTarget
            | .Minus =>
                match I.expr env operand with
                | .ok (env₁, .Num q) => .ok (env₁, .Num (efNeg q))
                | .ok (_, v) => .err (.BadArg v)
                | .err er => .err er
                | .nofuel => .nofuel
            | .LogicNot =>
                match I.expr env operand with
                | .ok (env₁, .VBool b) => .ok (env₁, .VBool (!b))
                | .ok (_, v) => .err (.BadArg v)
                | .err er => .err er
                | .nofuel => .nofuel
            | op => .err (.BinaryAsUnary op)
        | .Call fExpr args =>
            match I.expr env fExpr with
            | .ok (env₁, .Proc fParams fBody fEnv) =>
                if args.length ≠ fParams.length then
                  .err (.ArgMismatch (calleeName fExpr) fParams.length args.length)
                else
                  match I.exprList env₁ args with
                  | .ok (env₂, argValues) =>
                      match I.stmt (fEnv.extend (fParams.zip (argValues.map
                              (fun v => (v, AssignmentType.Initialized, Mutability.Constant)))))
                            fBody false with
                      | .ok (_, v, _) => .ok (env₂, v)
                      | .err er => .err er
                      | .nofuel => .nofuel
                  | .err er => .err er
                  | .nofuel => .nofuel
            | .ok (_, v) => .err (.BadArg v)
            | .err er => .err er
            | .nofuel => .nofuel
        | .PrimitiveCall b args =>
            match b with
            | .Print =>
                match I.exprList env args with
                | .ok (env₁, _) => .ok (env₁, .Nil)
                | .err er => .err er
                | .nofuel => .nofuel
            | .BList =>
                match I.exprList env args with
                | .ok (env₁, vs) => .ok (env₁, .VList vs)
                | .err er => .err er
                | .nofuel => .nofuel
            | .IsEmpty =>
                match ensureSingleArg args with
                | .error er => .err er
                | .ok arg =>
                    match I.expr env arg with
                    | .ok (env₁, v) =>
                        match ensureList v with
                        | .ok l => .ok (env₁, .VBool l.isEmpty)
                        | .error er => .err er
                    | .err er => .err er
                    | .nofuel => .nofuel
            | .IsNil =>
                match ensureSingleArg args with
                | .error er => .err er
                | .ok arg =>
                    match I.expr env arg with
                    | .ok (env₁, .Nil) => .ok (env₁, .VBool true)
                    | .ok (env₁, _) => .ok (env₁, .VBool false)
                    | .err er => .err er
                    | .nofuel => .nofuel
            | .Head =>
                match ensureSingleArg args with
                | .error er => .err er
                | .ok arg =>
                    match I.expr env arg with
                    | .ok (env₁, v) =>
                        match ensureList v with
                        | .ok (hd :: _) => .ok (env₁, hd)
                        | .ok [] => .ok (env₁, .Nil)
                        | .error er => .err er
                    | .err er => .err er
                    | .nofuel => .nofuel
            | .Rest =>
                match ensureSingleArg args with
                | .error er => .err er
                | .ok arg =>
                    match I.expr env arg with
                    | .ok (env₁, v) =>
                        match ensureList v with
                        | .ok (_ :: tail) => .ok (env₁, .VList tail)
                        | .ok [] => .ok (env₁, .Nil)
                        | .error er => .err er
                    | .err er => .err er
                    | .nofuel => .nofuel
        | .Index base idx =>
            match I.expr env base with
            | .ok (env₁, .VList l) =>
                match I.expr env₁ idx with
                | .ok (env₂, .Num q) =>
                    if efNe (efFract q) (.Finite 0) then
                      .err (.ExpectedInteger (.Num q))
                    else
                      let index := efToI64 q
                      if index < 0 then .err (.IndexOutOfBounds index)
                      else
                        match l.get? index.toNat with
                        | some v => .ok (env₂, v)
                        | none => .err (.IndexOutOfBounds index)
                | .ok (_, bad) => .err (.ExpectedInteger bad)
                | .err er => .err er
                | .nofuel => .nofuel
            | .ok (env₁, .Str s) =>
                match I.expr env₁ idx with
                | .ok (env₂, .Num q) =>
                    if efNe (efFract q) (.Finite 0) then
                      .err (.ExpectedInteger (.Num q))
                    else
                      let index := efToI64 q
                      if index < 0 then .err (.IndexOutOfBounds index)
                      else
                        match s.data.get? index.toNat with
                        | some c => .ok (env₂, .Str (String.singleton c))
                        | none => .err (.IndexOutOfBounds index)
                | .ok (_, bad) => .err (.ExpectedInteger bad)
                | .err er => .err er
                | .nofuel => .nofuel
            | .ok (_, v) => .err (.NotIndexable v)
            | .err er => .err er
            | .nofuel => .nofuel
      exprList := fun env es =>
        match es with
        | [] => .ok (env, [])
        | e :: rest =>
            match I.expr env e with
            | .ok (env₁, v) =>
                match I.exprList env₁ rest with
                | .ok (env₂, vs) => .ok (env₂, v :: vs)
                | .err er => .err er
                | .nofuel => .nofuel
            | .err er => .err er
            | .nofuel => .nofuel }

/-- `interp_statement`, fuel-bounded. -/
def interpStatement (fuel : Nat) (env : Environment) (s : Statement) (inLoop : Bool) :
    Res (Environment × Value × ControlFlow) :=
  (interpGo fuel).stmt env s inLoop

/-- The statement loop of the `Statement::Block` arm of `interp_statement`,
fuel-bounded: runs the statements in order against the (copied) block
environment, accumulating the block value, propagating `Return` and
in-loop `Break`/`Continue` signals, and failing on out-of-loop signals. -/
def interpStmtSeq (fuel : Nat) (env : Environment) (blockValue : Value)
    (stmts : List Statement) (inLoop : Bool) : Res (Environment × Value × ControlFlow) :=
  (interpGo fuel).stmtSeq env blockValue stmts inLoop

/-- `interp_expression`, fuel-bounded. -/
def interpExpression (fuel : Nat) (env : Environment) (e : Expr) :
    Res (Environment × Value) :=
  (interpGo fuel).expr env e

/-- Left-to-right evaluation of an expression list threading the
environment (the argument-collection loop of the `Expr::Call` arm),
fuel-bounded. -/
def interpExprList (fuel : Nat) (env : Environment) (es : List Expr) :
    Res (Environment × List Value) :=
  (interpGo fuel).exprList env es

/-- Well-formedness of an environment: the value map has no duplicate
keys.  This holds for the empty environment `Environment::new` produces and
is preserved by every interpreter step (`HashMap` keys are unique by
construction); it is the invariant under which the association-list model
coincides with the `HashMap`. -/
def Environment.WF (env : Environment) : Prop :=
  (env.values.map Prod.fst).Nodup

/-- Discriminator used to state the `NotIndexable`/`ExpectedInteger`
fall-through cases of the `Expr::Index` arm. -/
def Value.isNum : Value → Bool
  | .Num _ => true
  | _ => false

def Value.isList : Value → Bool
  | .VList _ => true
  | _ => false

def Value.isStr : Value → Bool
  | .Str _ => true
  | _ => false

/-- Discriminator for the infinity/NaN outcomes of IEEE-754 division and
remainder by zero. -/
def EF.isInfOrNaN : EF → Bool
  | .PInf => true
  | .NInf => true
  | .NaN => true
  | .Finite _ => false

/-- The entry a parent binding ends up with after
`update_reassigned_entries`, as a function of the child's binding for the
same name: the child's value (re-marked `Reassigned`/`Mutable`) when the
child's binding is marked `Reassigned`, the parent's own entry otherwise. -/
def mergeEntry (parentEntry : Entry) (childEntry : Option Entry) : Entry :=
  match childEntry with
  | some (w, .Reassigned, _) => (w, .Reassigned, .Mutable)
  | _ => parentEntry

end Linger

namespace LingerV1

/-!
The older generation of the code base: the sugared and core ASTs of
`src/parser.rs` / `src/desugar.rs` (`i64` numbers), the desugarer of
`src/desugar.rs`, and the `Operator::Div` / `Operator::Mod` arms of
`interp_expression` in `src/interpreter.rs`.  `Operator` is the shared
`tokenizer.rs` enum; `Builtin` of this generation is a subset of the
current one and the desugarer is parametric in it, so the shared type is
reused.
-/

open Linger (Operator Builtin)

/-! Sugared statements, in the shape destructured by `desugar.rs` (the
`For` body is a single statement expected to be a `Block`). -/
mutual

inductive SugaredStatement : Type where
  | SExpr (e : SugaredExpr)
  | SLet (name : String) (e : SugaredExpr)
  | Assign (name : String) (e : SugaredExpr)
  | If (cond : SugaredExpr) (thenB : SugaredStatement)
       (elseIfs : List (SugaredExpr × SugaredStatement)) (elseB : Option SugaredStatement)
  | While (cond : SugaredExpr) (body : SugaredStatement)
  | For (init : SugaredStatement) (stop : SugaredExpr) (step : SugaredStatement)
        (body : SugaredStatement)
  | Break
  | Continue
  | Return (e : Option SugaredExpr)
  | Block (stmts : List SugaredStatement)

inductive SugaredExpr : Type where
  | Num (n : ℤ)
  | EBool (b : Bool)
  | Str (s : String)
  | Var (id : String)
  | Binary (op : Operator) (left : SugaredExpr) (right : SugaredExpr)
  | Unary (op : Operator) (e : SugaredExpr)
  | PrimitiveCall (b : Builtin) (args : List SugaredExpr)
  | Call (f : SugaredExpr) (args : List SugaredExpr)
  | Lambda (params : List String) (body : List SugaredStatement)

end

/-! Core statements of `desugar.rs` (`pub enum Statement`): no `For`, no
else-if chains. -/
mutual

inductive Statement : Type where
  | SExpr (e : Expr)
  | SLet (name : String) (e : Expr)
  | Assign (name : String) (e : Expr)
  | If (cond : Expr) (thenB : Statement) (elseB : Option Statement)
  | While (cond : Expr) (body : Statement)
  | Block (stmts : List Statement)
  | Return (e : Option Expr)
  | Break
  | Continue

inductive Expr : Type where
  | Num (n : ℤ)
  | EBool (b : Bool)
  | Str (s : String)
  | Var (id : String)
  | Binary (op : Operator) (left : Expr) (right : Expr)
  | Unary (op : Operator) (e : Expr)
  | PrimitiveCall (b : Builtin) (args : List Expr)
  | Call (f : Expr) (args : List Expr)
  | Lambda (params : List String) (body : List Statement)

end

/-! The desugarer of `desugar.rs`: `desugar_statement`,
`desugar_statements`, `desugar_expression`, and the `rfold` over the
else-if list of an `If` (written as explicit recursion: the first else-if
becomes the outermost nested `If`, exactly as the right fold produces). -/
mutual

def desugarStatement : SugaredStatement → Statement
  | .SExpr e => .SExpr (desugarExpression e)
  | .SLet name e => .SLet name (desugarExpression e)
  | .Assign name e => .Assign name (desugarExpression e)
  | .If cond thenB elseIfs elseB =>
      .If (desugarExpression cond) (desugarStatement thenB)
        (desugarElseIfs elseIfs
          (match elseB with
           | some b => some (desugarStatement b)
           | none => none))
  | .Return eOpt =>
      .Return (match eOpt with
               | some e => some (desugarExpression e)
               | none => none)
  | .While cond body => .While (desugarExpression cond) (desugarStatement body)
  | .For init stop step body =>
      .Block [desugarStatement init,
              .While (desugarExpression stop)
                (.Block ((match desugarStatement body with
                          | .Block stmts => stmts
                          -- The source marks this arm `unreachable!()`: the
                          -- parser guarantees the `For` body is a `Block`.
                          | other => [other]) ++ [desugarStatement step]))]
  | .Break => .Break
  | .Continue => .Continue
  | .Block stmts => .Block (desugarStatements stmts)

def desugarStatements : List SugaredStatement → List Statement
  | [] => []
  | s :: rest => desugarStatement s :: desugarStatements rest

def desugarElseIfs : List (SugaredExpr × SugaredStatement) → Option Statement → Option Statement
  | [], acc => acc
  | (c, b) :: rest, acc =>
      some (.If (desugarExpression c) (desugarStatement b) (desugarElseIfs rest acc))

def desugarExpression : SugaredExpr → Expr
  | .Num n => .Num n
  | .EBool b => .EBool b
  | .Str s => .Str s
  | .Var id => .Var id
  | .Binary op l r => .Binary op (desugarExpression l) (desugarExpression r)
  | .Unary op e => .Unary op (desugarExpression e)
  | .PrimitiveCall b args => .PrimitiveCall b (desugarExprList args)
  | .Call f args => .Call (desugarExpression f) (desugarExprList args)
  | .Lambda params body => .Lambda params (desugarStatements body)

def desugarExprList : List SugaredExpr → List Expr
  | [] => []
  | e :: rest => desugarExpression e :: desugarExprList rest

end

/-- Whether a variable was most recently initialized or assigned, from
`interpreter.rs` (`pub enum ValueWas`). -/
inductive ValueWas : Type where
  | Assigned
  | Initialized
deriving DecidableEq, Repr

/-- Values of the older interpreter (`interpreter.rs`): `i64` numbers
(modelled as unbounded integers; the claims about this generation concern
only the zero-divisor behavior, not overflow), and closures capturing the
`HashMap` environment. -/
inductive Value : Type where
  | Num (n : ℤ)
  | VBool (b : Bool)
  | Str (s : String)
  | Lambda (params : List String) (body : List Statement)
           (env : List (String × Value × ValueWas))
  | Void

/-- Runtime errors of the older generation, restricted to the constructor
the modelled arms use (its error enum predates the `error.rs` present
under `src/`). -/
inductive RuntimeError : Type where
  | BadArgs (vs : List Value)

/-- Outcome of an arm of the older interpreter: a value, a language-level
runtime error, or a host panic (the process abort Rust performs on `i64`
division or remainder by zero). -/
inductive PRes (α : Type) : Type where
  | ok (a : α)
  | err (e : RuntimeError)
  | hostPanic

/-- The `Operator::Div` arm of `interp_expression` in `interpreter.rs`,
applied to the two evaluated operand values.  Rust `i64` division
truncates toward zero and panics on a zero divisor; there is no
divide-by-zero error branch.  (The `i64::MIN / -1` overflow panic is not
modelled: numbers are unbounded here.) -/
def interpDivArm : Value → Value → PRes Value
  | .Num l, .Num r => if r = 0 then .hostPanic else .ok (.Num (l.tdiv r))
  | vl, vr => .err (.BadArgs [vl, vr])

/-- The `Operator::Mod` arm of `interp_expression` in `interpreter.rs`,
applied to the two evaluated operand values.  Rust `i64` `%` is the
truncated remainder and panics on a zero divisor. -/
def interpModArm : Value → Value → PRes Value
  | .Num l, .Num r => if r = 0 then .hostPanic else .ok (.Num (l.tmod r))
  | vl, vr => .err (.BadArgs [vl, vr])

end LingerV1

namespace LingerParse

/-!
The call-site builtin recognition of the current parser: the sugared AST
of `src/parser/` (pinned by its uses in `parser/statements.rs`,
`parser/expressions.rs`, `parser/utils.rs`; its declaration file is the
parser module root, not present under `src/`), `check_builtin` from
`parser/utils.rs`, and the node-construction step of `parse_call_expr`
from `parser/expressions.rs`.
-/

open Linger (Operator Builtin EF)

/-- Compound-assignment operators, from `tokenizer.rs` (`pub enum AssignOp`). -/
inductive AssignOp : Type where
  | Plus
  | Minus
deriving DecidableEq, Repr

mutual

inductive SugaredExpr : Type where
  | Num (n : EF)
  | EBool (b : Bool)
  | Str (s : String)
  | Var (name : String)
  | Binary (op : Operator) (left : SugaredExpr) (right : SugaredExpr)
  | Unary (op : Operator) (e : SugaredExpr)
  | PrimitiveCall (b : Builtin) (args : List SugaredExpr)
  | Call (f : SugaredExpr) (args : List SugaredExpr)
  | Lambda (params : List String) (body : SugaredStatement)

inductive SugaredStatement : Type where
  | SExpr (e : SugaredExpr)
  | SLet (name : String) (e : SugaredExpr)
  | SConst (name : String) (e : SugaredExpr)
  | Assign (name : String) (e : SugaredExpr)
  | OperatorAssignment (op : AssignOp) (name : String) (e : SugaredExpr)
  | If (cond : SugaredExpr) (thenB : SugaredStatement)
       (elseIfs : List (SugaredExpr × SugaredStatement)) (elseB : Option SugaredStatement)
  | While (cond : SugaredExpr) (body : SugaredStatement)
  | For (init : SugaredStatement) (stop : SugaredExpr) (step : SugaredStatement)
        (bodyStmts : List SugaredStatement)
  | Break
  | Continue
  | Return (e : Option SugaredExpr)
  | Block (stmts : List SugaredStatement)

end

/-- `check_builtin` from `parser/utils.rs`: a builtin is recognized only
for a bare variable-reference callee, and (in this, the current, version
of the function) only for the names `print` and `list`. -/
def checkBuiltin : SugaredExpr → Option Builtin
  | .Var name =>
      match name with
      | "print" => some .Print
      | "list" => some .BList
      | _ => none
  | _ => none

/-- The call-node construction step inside the postfix loop of
`parse_call_expr` (`parser/expressions.rs`): after the argument list of a
`(`-postfix has been parsed, the callee expression parsed so far becomes a
builtin-call node if `check_builtin` recognizes it, and a user call node
otherwise. -/
def mkCallExpr (callee : SugaredExpr) (args : List SugaredExpr) : SugaredExpr :=
  match checkBuiltin callee with
  | some b => .PrimitiveCall b args
  | none => .Call callee args

end LingerParse

/-! ## Lemmas about the environment model -/

namespace Linger

theorem lookupA_insertA_self {α : Type} (l : List (String × α)) (k : String) (a : α) :
    lookupA (insertA l k a) k = some a := by
  induction l with
  | nil => simp [insertA, lookupA]
  | cons hd tl ih =>
      obtain ⟨k', b⟩ := hd
      by_cases h : k' = k
      · simp [insertA, h, lookupA]
      · simp [insertA, h, lookupA, ih]

theorem lookupA_insertA_ne {α : Type} (l : List (String × α)) (k k' : String) (a : α)
    (h : k' ≠ k) : lookupA (insertA l k a) k' = lookupA l k' := by
  have hkk : ¬(k = k') := fun he => h he.symm
  induction l with
  | nil => simp [insertA, lookupA, hkk]
  | cons hd tl ih =>
      obtain ⟨k₀, b⟩ := hd
      by_cases h₀ : k₀ = k
      · subst h₀
        simp [insertA, lookupA, hkk]
      · by_cases h₁ : k₀ = k'
        · subst h₁
          simp [insertA, lookupA, h₀]
        · simp [insertA, lookupA, h₀, h₁, ih]

theorem mem_keys_insertA {α : Type} (l : List (String × α)) (k x : String) (a : α) :
    x ∈ (insertA l k a).map Prod.fst ↔ x ∈ l.map Prod.fst ∨ x = k := by
  induction l with
  | nil => simp [insertA]
  | cons hd tl ih =>
      obtain ⟨k₀, b⟩ := hd
      by_cases h₀ : k₀ = k
      · subst h₀
        simp [insertA]
        tauto
      · simp [insertA, h₀, ih]
        tauto

theorem nodup_keys_insertA {α : Type} (l : List (String × α)) (k : String) (a : α)
    (h : (l.map Prod.fst).Nodup) : ((insertA l k a).map Prod.fst).Nodup := by
  induction l with
  | nil => simp [insertA]
  | cons hd tl ih =>
      obtain ⟨k₀, b⟩ := hd
      simp only [List.map_cons, List.nodup_cons] at h
      by_cases h₀ : k₀ = k
      · subst h₀
        simpa [insertA] using h
      · simp only [insertA, if_neg h₀, List.map_cons, List.nodup_cons]
        refine ⟨fun hmem => ?_, ih h.2⟩
        rcases (mem_keys_insertA tl k k₀ a).1 hmem with hin | heq
        · exact h.1 hin
        · exact h₀ heq

theorem lookupA_eq_none_of_not_mem_keys {α : Type} (l : List (String × α)) (k : String)
    (h : k ∉ l.map Prod.fst) : lookupA l k = none := by
  induction l with
  | nil => rfl
  | cons hd tl ih =>
      obtain ⟨k₀, b⟩ := hd
      simp only [List.map_cons, List.mem_cons] at h
      push_neg at h
      have h₀ : ¬(k₀ = k) := fun hh => h.1 hh.symm
      simp [lookupA, h₀, ih h.2]

/-- Inversion of a successful `reassign`: the key was bound mutably, the
procedure table is unchanged, and the value map gets the insert-replace. -/
theorem reassign_ok_elim {env : Environment} {key : String} {v : Value} {env' : Environment}
    (h : env.reassign key v = .ok env') :
    env'.topLevelProcedures = env.topLevelProcedures ∧
    env'.values = insertA env.values key (v, .Reassigned, .Mutable) ∧
    ∃ w t, lookupA env.values key = some (w, t, .Mutable) := by
  unfold Environment.reassign at h
  rcases hl : lookupA env.values key with _ | ⟨w, t, m⟩
  · rw [hl] at h
    rcases hp : lookupA env.topLevelProcedures key with _ | p <;> rw [hp] at h <;>
      exact absurd h (by simp)
  · rw [hl] at h
    cases m with
    | Mutable =>
        simp only [Except.ok.injEq] at h
        subst h
        exact ⟨rfl, rfl, w, t, rfl⟩
    | Constant => exact absurd h (by simp)

theorem reassign_lookup_self {env : Environment} {key : String} {v : Value} {env' : Environment}
    (h : env.reassign key v = .ok env') :
    lookupA env'.values key = some (v, .Reassigned, .Mutable) := by
  obtain ⟨-, hv, -⟩ := reassign_ok_elim h
  rw [hv]
  exact lookupA_insertA_self _ _ _

theorem reassign_lookup_ne {env : Environment} {key : String} {v : Value} {env' : Environment}
    (h : env.reassign key v = .ok env') (name : String) (hne : name ≠ key) :
    lookupA env'.values name = lookupA env.values name := by
  obtain ⟨-, hv, -⟩ := reassign_ok_elim h
  rw [hv]
  exact lookupA_insertA_ne _ _ _ _ hne

theorem reassign_lookup_none {env : Environment} {key : String} {v : Value} {env' : Environment}
    (h : env.reassign key v = .ok env') (name : String)
    (hn : lookupA env.values name = none) : lookupA env'.values name = none := by
  obtain ⟨-, -, w, t, hk⟩ := reassign_ok_elim h
  have hne : name ≠ key := by
    intro he
    rw [he, hk] at hn
    exact Option.noConfusion hn
  rw [reassign_lookup_ne h name hne]
  exact hn

theorem reassign_WF {env : Environment} {key : String} {v : Value} {env' : Environment}
    (h : env.reassign key v = .ok env') (hw : env.WF) : env'.WF := by
  obtain ⟨-, hv, -⟩ := reassign_ok_elim h
  unfold Environment.WF
  rw [hv]
  exact nodup_keys_insertA _ _ _ hw

theorem insertNewMutableValue_WF (env : Environment) (key : String) (v : Value)
    (hw : env.WF) : (env.insertNewMutableValue key v).WF :=
  nodup_keys_insertA _ _ _ hw

theorem insertNewConstantValue_WF (env : Environment) (key : String) (v : Value)
    (hw : env.WF) : (env.insertNewConstantValue key v).WF :=
  nodup_keys_insertA _ _ _ hw

theorem updateEntriesAux_WF :
    ∀ (entries : List (String × Entry)) (parent merged : Environment),
      parent.WF → updateEntriesAux parent entries = .ok merged → merged.WF := by
  intro entries
  induction entries with
  | nil =>
      intro parent merged hw h
      simp only [updateEntriesAux, Except.ok.injEq] at h
      exact h ▸ hw
  | cons hd tl ih =>
      intro parent merged hw h
      obtain ⟨id, v, t, m⟩ := hd
      simp only [updateEntriesAux] at h
      rcases t with _ | _
      · exact ih parent merged hw h
      · rcases hc : parent.containsKey id with _ | _ <;> rw [hc] at h
        · exact ih parent merged hw h
        · rcases hr : parent.reassign id v with e | parent' <;> rw [hr] at h
          · exact absurd h (by simp)
          · exact ih parent' merged (reassign_WF hr hw) h

/-- The observable effect of `update_reassigned_entries` on the parent,
provided the child value map has no duplicate keys: no new name appears,
and every name the parent already binds ends up with `mergeEntry` of its
old entry and the child's binding for that name. -/
theorem updateEntriesAux_lookup :
    ∀ (entries : List (String × Entry)) (parent merged : Environment),
      (entries.map Prod.fst).Nodup →
      updateEntriesAux parent entries = .ok merged →
      (∀ name, lookupA parent.values name = none → lookupA merged.values name = none) ∧
      (∀ name e, lookupA parent.values name = some e →
        lookupA merged.values name = some (mergeEntry e (lookupA entries name))) := by
  intro entries
  induction entries with
  | nil =>
      intro parent merged _ h
      simp only [updateEntriesAux, Except.ok.injEq] at h
      subst h
      exact ⟨fun name hn => hn, fun name e he => by simp [lookupA, mergeEntry, he]⟩
  | cons hd tl ih =>
      intro parent merged hnd h
      obtain ⟨id, v, t, m⟩ := hd
      simp only [List.map_cons, List.nodup_cons] at hnd
      have htl_none : lookupA tl id = none :=
        lookupA_eq_none_of_not_mem_keys tl id hnd.1
      simp only [updateEntriesAux] at h
      rcases t with _ | _
      · -- entry marked Initialized: skipped
        obtain ⟨hnone, hsome⟩ := ih parent merged hnd.2 h
        refine ⟨hnone, fun name e he => ?_⟩
        by_cases hn : name = id
        · subst hn
          rw [hsome name e he, htl_none]
          simp [lookupA, mergeEntry]
        · rw [hsome name e he]
          have hne : ¬(id = name) := fun hh => hn hh.symm
          simp [lookupA, hne]
      · rcases hc : parent.containsKey id with _ | _ <;> rw [hc] at h
        · -- parent lacks the name: skipped
          obtain ⟨hnone, hsome⟩ := ih parent merged hnd.2 h
          refine ⟨hnone, fun name e he => ?_⟩
          by_cases hn : name = id
          · subst hn
            exact absurd he (by
              unfold Environment.containsKey at hc
              rcases hl : lookupA parent.values name with _ | _
              · simp
              · rw [hl] at hc; simp at hc)
          · rw [hsome name e he]
            have hne : ¬(id = name) := fun hh => hn hh.symm
            simp [lookupA, hne]
        · -- parent has the name and the child entry is Reassigned: reassign
          rcases hr : parent.reassign id v with e₀ | parent' <;> rw [hr] at h
          · exact absurd h (by simp)
          · obtain ⟨hnone, hsome⟩ := ih parent' merged hnd.2 h
            constructor
            · intro name hn
              exact hnone name (reassign_lookup_none hr name hn)
            · intro name e he
              by_cases hn : name = id
              · subst hn
                have h₁ : lookupA parent'.values name = some (v, .Reassigned, .Mutable) :=
                  reassign_lookup_self hr
                rw [hsome name _ h₁, htl_none]
                simp [lookupA, mergeEntry]
              · have h₁ : lookupA parent'.values name = some e := by
                  rw [reassign_lookup_ne hr name hn]; exact he
                rw [hsome name e h₁]
                have hne : ¬(id = name) := fun hh => hn hh.symm
                simp [lookupA, hne]

theorem updateReassignedEntries_WF {parent other merged : Environment}
    (hw : parent.WF) (h : parent.updateReassignedEntries other = .ok merged) : merged.WF :=
  updateEntriesAux_WF _ _ _ hw h

theorem updateReassignedEntries_lookup {parent other merged : Environment}
    (hnd : other.WF) (h : parent.updateReassignedEntries other = .ok merged) :
    (∀ name, lookupA parent.values name = none → lookupA merged.values name = none) ∧
    (∀ name e, lookupA parent.values name = some e →
      lookupA merged.values name = some (mergeEntry e (lookupA other.values name))) :=
  updateEntriesAux_lookup _ _ _ hnd h

end Linger

/-! ## Lemmas about the extended-float model -/

namespace Linger

theorem ratTrunc_den_one {q : ℚ} (h : q.den = 1) : ratTrunc q = q.num := by
  unfold ratTrunc
  rw [h]
  simp

theorem rat_eq_num_of_den_one {q : ℚ} (h : q.den = 1) : (q.num : ℚ) = q := by
  rw [Rat.den_eq_one_iff] at h
  exact h

theorem efFract_eq_zero_of_den_one {q : ℚ} (h : q.den = 1) :
    efFract (.Finite q) = .Finite 0 := by
  simp only [efFract, ratTrunc_den_one h, rat_eq_num_of_den_one h, EF.Finite.injEq]
  ring

theorem efNe_fract_false_of_den_one {q : ℚ} (h : q.den = 1) :
    efNe (efFract (.Finite q)) (.Finite 0) = false := by
  rw [efFract_eq_zero_of_den_one h]
  simp [efNe, efEq]

theorem efNe_fract_true_of_den_ne_one {q : ℚ} (h : q.den ≠ 1) :
    efNe (efFract (.Finite q)) (.Finite 0) = true := by
  have hne : q - (ratTrunc q : ℚ) ≠ 0 := by
    intro hc
    apply h
    have hq : q = ((ratTrunc q : ℤ) : ℚ) := by linarith
    rw [hq]
    exact Rat.den_intCast _
  simp [efFract, efNe, efEq, hne]

theorem efToI64_den_one {q : ℚ} (h : q.den = 1) (h₁ : -(2 ^ 63) ≤ q.num)
    (h₂ : q.num < 2 ^ 63) : efToI64 (.Finite q) = q.num := by
  simp only [efToI64, ratTrunc_den_one h]
  omega

end Linger

/-! ## Preservation of environment well-formedness -/

namespace Linger

/-- Every environment an interpreter step hands back to its caller is
well-formed whenever the input environment is: the interpreter only ever
builds environments by `HashMap`-style insert/reassign/merge, none of
which can duplicate a key. -/
theorem interp_WF_preservation :
    ∀ n : Nat,
      (∀ env s inLoop env' v cf,
        interpStatement n env s inLoop = .ok (env', v, cf) → env.WF → env'.WF) ∧
      (∀ env acc stmts inLoop env' v cf,
        interpStmtSeq n env acc stmts inLoop = .ok (env', v, cf) → env.WF → env'.WF) ∧
      (∀ env e env' v,
        interpExpression n env e = .ok (env', v) → env.WF → env'.WF) ∧
      (∀ env es env' vs,
        interpExprList n env es = .ok (env', vs) → env.WF → env'.WF) := by
  intro n
  induction n with
  | zero =>
      refine ⟨?_, ?_, ?_, ?_⟩
      · intro env s inLoop env' v cf h
        simp [interpStatement, interpGo] at h
      · intro env acc stmts inLoop env' v cf h
        simp [interpStmtSeq, interpGo] at h
      · intro env e env' v h
        simp [interpExpression, interpGo] at h
      · intro env es env' vs h
        simp [interpExprList, interpGo] at h
  | succ n ih =>
      obtain ⟨ihS, ihSeq, ihE, ihEs⟩ := ih
      refine ⟨?_, ?_, ?_, ?_⟩
      · -- statements
        intro env s inLoop env' v cf h hw
        cases s with
        | SExpr e =>
            simp only [interpStatement, interpGo] at h
            split at h
            next env₁ v₁ heq =>
              cases h
              exact ihE _ _ _ _ heq hw
            next er heq => simp at h
            next heq => simp at h
        | SLet id e =>
            simp only [interpStatement, interpGo] at h
            split at h
            next env₁ v₁ heq =>
              cases h
              exact insertNewMutableValue_WF _ _ _ (ihE _ _ _ _ heq hw)
            next er heq => simp at h
            next heq => simp at h
        | SConst id e =>
            simp only [interpStatement, interpGo] at h
            split at h
            next env₁ v₁ heq =>
              cases h
              exact insertNewConstantValue_WF _ _ _ (ihE _ _ _ _ heq hw)
            next er heq => simp at h
            next heq => simp at h
        | Assign id e =>
            simp only [interpStatement, interpGo] at h
            split at h
            next env₁ v₁ heq =>
              split at h
              next env₂ heq₂ =>
                cases h
                exact reassign_WF heq₂ (ihE _ _ _ _ heq hw)
              next er heq₂ => simp at h
            next er heq => simp at h
            next heq => simp at h
        | If cond thenS elseS =>
            simp only [interpStatement, interpGo] at h
            split at h
            next env₁ b heq =>
              split at h
              · exact ihS _ _ _ _ _ _ h (ihE _ _ _ _ heq hw)
              · split at h
                next s' =>
                  exact ihS _ _ _ _ _ _ h (ihE _ _ _ _ heq hw)
                next =>
                  cases h
                  exact ihE _ _ _ _ heq hw
            next v₁ heq hne => simp at h
            next er heq => simp at h
            next heq => simp at h
        | While cond body =>
            simp only [interpStatement, interpGo] at h
            split at h
            next env₁ heq =>
              split at h
              next env₂ v₂ heq₂ =>
                cases h
                exact ihS _ _ _ _ _ _ heq₂ (ihE _ _ _ _ heq hw)
              next env₂ v₂ heq₂ =>
                cases h
                exact ihS _ _ _ _ _ _ heq₂ (ihE _ _ _ _ heq hw)
              next env₂ v₂ cf₂ hne₁ hne₂ heq₂ =>
                exact ihS _ _ _ _ _ _ h
                  (ihS _ _ _ _ _ _ heq₂ (ihE _ _ _ _ heq hw))
              next er heq₂ => simp at h
              next heq₂ => simp at h
            next env₁ heq =>
              cases h
              exact ihE _ _ _ _ heq hw
            next v₁ heq hne => simp at h
            next er heq => simp at h
            next heq => simp at h
        | Return eOpt =>
            simp only [interpStatement, interpGo] at h
            split at h
            next e =>
              split at h
              next env₁ v₁ heq =>
                cases h
                exact ihE _ _ _ _ heq hw
              next er heq => simp at h
              next heq => simp at h
            next =>
              cases h
              exact hw
        | Break =>
            simp only [interpStatement, interpGo] at h
            cases h
            exact hw
        | Continue =>
            simp only [interpStatement, interpGo] at h
            cases h
            exact hw
        | Block stmts =>
            simp only [interpStatement, interpGo] at h
            split at h
            next blockEnv v₁ cf₁ heq =>
              split at h
              next env₂ heq₂ =>
                cases h
                exact updateReassignedEntries_WF hw heq₂
              next er heq₂ => simp at h
            next er heq => simp at h
            next heq => simp at h
      · -- statement sequences
        intro env acc stmts inLoop env' v cf h hw
        cases stmts with
        | nil =>
            simp only [interpStmtSeq, interpGo] at h
            cases h
            exact hw
        | cons s rest =>
            simp only [interpStmtSeq, interpGo] at h
            split at h
            next env₁ v₁ heq =>
              exact ihSeq _ _ _ _ _ _ _ h (ihS _ _ _ _ _ _ heq hw)
            next env₁ v₁ heq =>
              cases h
              exact ihS _ _ _ _ _ _ heq hw
            next env₁ v₁ heq =>
              split at h
              · cases h
                exact ihS _ _ _ _ _ _ heq hw
              · simp at h
            next env₁ v₁ heq =>
              split at h
              · cases h
                exact ihS _ _ _ _ _ _ heq hw
              · simp at h
            next er heq => simp at h
            next heq => simp at h
      · -- expressions
        intro env e env' v h hw
        cases e with
        | ENil =>
            simp only [interpExpression, interpGo] at h
            cases h
            exact hw
        | Num q =>
            simp only [interpExpression, interpGo] at h
            cases h
            exact hw
        | EBool b =>
            simp only [interpExpression, interpGo] at h
            cases h
            exact hw
        | Str s =>
            simp only [interpExpression, interpGo] at h
            cases h
            exact hw
        | Lambda params body =>
            simp only [interpExpression, interpGo] at h
            cases h
            exact hw
        | Var id =>
            simp only [interpExpression, interpGo] at h
            split at h
            next v₁ heq =>
              cases h
              exact hw
            next er heq => simp at h
        | Binary op left right =>
            simp only [interpExpression, interpGo] at h
            cases op
            case LogicOr =>
              dsimp only at h
              split at h
              next env₁ heq =>
                cases h
                exact ihE _ _ _ _ heq hw
              next env₁ heq =>
                split at h
                next env₂ b heq₂ =>
                  cases h
                  exact ihE _ _ _ _ heq₂ (ihE _ _ _ _ heq hw)
                next v₁ heq₂ hne => simp at h
                next er heq₂ => simp at h
                next heq₂ => simp at h
              next v₁ heq hne₁ hne₂ => simp at h
              next er heq => simp at h
              next heq => simp at h
            case LogicAnd =>
              dsimp only at h
              split at h
              next env₁ heq =>
                cases h
                exact ihE _ _ _ _ heq hw
              next env₁ heq =>
                split at h
                next env₂ b heq₂ =>
                  cases h
                  exact ihE _ _ _ _ heq₂ (ihE _ _ _ _ heq hw)
                next v₁ heq₂ hne => simp at h
                next er heq₂ => simp at h
                next heq₂ => simp at h
              next v₁ heq hne₁ hne₂ => simp at h
              next er heq => simp at h
              next heq => simp at h
            case LogicNot => simp at h
            case PreIncrement => simp at h
            case PostIncrement => simp at h
            case PreDecrement => simp at h
            case PostDecrement => simp at h
            all_goals
              dsimp only at h
              split at h
              next env₁ v₁ heq =>
                split at h
                next env₂ v₂ heq₂ =>
                  split at h
                  next v₃ heq₃ =>
                    cases h
                    exact ihE _ _ _ _ heq₂ (ihE _ _ _ _ heq hw)
                  next er heq₃ => simp at h
                next er heq₂ => simp at h
                next heq₂ => simp at h
              next er heq => simp at h
              next heq => simp at h
        | Unary op operand =>
            simp only [interpExpression, interpGo] at h
            cases op
            case Minus =>
              dsimp only at h
              split at h
              next env₁ q heq =>
                cases h
                exact ihE _ _ _ _ heq hw
              next v₁ heq hne => simp at h
              next er heq => simp at h
              next heq => simp at h
            case LogicNot =>
              dsimp only at h
              split at h
              next env₁ b heq =>
                cases h
                exact ihE _ _ _ _ heq hw
              next v₁ heq hne => simp at h
              next er heq => simp at h
              next heq => simp at h
            case PreIncrement =>
              dsimp only at h
              split at h
              next id =>
                split at h
                next env₁ q heq =>
                  split at h
                  next env₂ heq₂ =>
                    cases h
                    exact reassign_WF heq₂ (ihE _ _ _ _ heq hw)
                  next er heq₂ => simp at h
                next v₁ heq hne => simp at h
                next er heq => simp at h
                next heq => simp at h
              next hne => simp at h
            case PostIncrement =>
              dsimp only at h
              split at h
              next id =>
                split at h
                next env₁ q heq =>
                  split at h
                  next env₂ heq₂ =>
                    cases h
                    exact reassign_WF heq₂ (ihE _ _ _ _ heq hw)
                  next er heq₂ => simp at h
                next v₁ heq hne => simp at h
                next er heq => simp at h
                next heq => simp at h
              next hne => simp at h
            case PreDecrement =>
              dsimp only at h
              split at h
              next id =>
                split at h
                next env₁ q heq =>
                  split at h
                  next env₂ heq₂ =>
                    cases h
                    exact reassign_WF heq₂ (ihE _ _ _ _ heq hw)
                  next er heq₂ => simp at h
                next v₁ heq hne => simp at h
                next er heq => simp at h
                next heq => simp at h
              next hne => simp at h
            case PostDecrement =>
              dsimp only at h
              split at h
              next id =>
                split at h
                next env₁ q heq =>
                  split at h
                  next env₂ heq₂ =>
                    cases h
                    exact reassign_WF heq₂ (ihE _ _ _ _ heq hw)
                  next er heq₂ => simp at h
                next v₁ heq hne => simp at h
                next er heq => simp at h
                next heq => simp at h
              next hne => simp at h
            all_goals simp at h
        | Call fExpr args =>
            simp only [interpExpression, interpGo] at h
            split at h
            next env₁ fParams fBody fEnv heq =>
              split at h
              · simp at h
              · split at h
                next env₂ argValues heq₂ =>
                  split at h
                  next envB vB cfB heqB =>
                    cases h
                    exact ihEs _ _ _ _ heq₂ (ihE _ _ _ _ heq hw)
                  next er heqB => simp at h
                  next heqB => simp at h
                next er heq₂ => simp at h
                next heq₂ => simp at h
            next v₁ heq hne => simp at h
            next er heq => simp at h
            next heq => simp at h
        | PrimitiveCall b args =>
            simp only [interpExpression, interpGo] at h
            cases b
            case Print =>
              dsimp only at h
              split at h
              next env₁ vs heq =>
                cases h
                exact ihEs _ _ _ _ heq hw
              next er heq => simp at h
              next heq => simp at h
            case BList =>
              dsimp only at h
              split at h
              next env₁ vs heq =>
                cases h
                exact ihEs _ _ _ _ heq hw
              next er heq => simp at h
              next heq => simp at h
            case IsEmpty =>
              dsimp only at h
              split at h
              next er heq => simp at h
              next arg heq =>
                split at h
                next env₁ v₁ heq₁ =>
                  split at h
                  next l heq₂ =>
                    cases h
                    exact ihE _ _ _ _ heq₁ hw
                  next er heq₂ => simp at h
                next er heq₁ => simp at h
                next heq₁ => simp at h
            case IsNil =>
              dsimp only at h
              split at h
              next er heq => simp at h
              next arg heq =>
                split at h
                next env₁ heq₁ =>
                  cases h
                  exact ihE _ _ _ _ heq₁ hw
                next env₁ v₁ hne heq₁ =>
                  cases h
                  exact ihE _ _ _ _ heq₁ hw
                next er heq₁ => simp at h
                next heq₁ => simp at h
            case Head =>
              dsimp only at h
              split at h
              next er heq => simp at h
              next arg heq =>
                split at h
                next env₁ v₁ heq₁ =>
                  split at h
                  next hd tail heq₂ =>
                    cases h
                    exact ihE _ _ _ _ heq₁ hw
                  next heq₂ =>
                    cases h
                    exact ihE _ _ _ _ heq₁ hw
                  next er heq₂ => simp at h
                next er heq₁ => simp at h
                next heq₁ => simp at h
            case Rest =>
              dsimp only at h
              split at h
              next er heq => simp at h
              next arg heq =>
                split at h
                next env₁ v₁ heq₁ =>
                  split at h
                  next hd tail heq₂ =>
                    cases h
                    exact ihE _ _ _ _ heq₁ hw
                  next heq₂ =>
                    cases h
                    exact ihE _ _ _ _ heq₁ hw
                  next er heq₂ => simp at h
                next er heq₁ => simp at h
                next heq₁ => simp at h
        | Index base idx =>
            simp only [interpExpression, interpGo] at h
            split at h
            next env₁ l heq =>
              split at h
              next env₂ q heq₂ =>
                split at h
                · simp at h
                · split at h
                  · simp at h
                  · split at h
                    next w heq₃ =>
                      cases h
                      exact ihE _ _ _ _ heq₂ (ihE _ _ _ _ heq hw)
                    next heq₃ => simp at h
              next v₁ heq₂ hne => simp at h
              next er heq₂ => simp at h
              next heq₂ => simp at h
            next env₁ s heq =>
              split at h
              next env₂ q heq₂ =>
                split at h
                · simp at h
                · split at h
                  · simp at h
                  · split at h
                    next c heq₃ =>
                      cases h
                      exact ihE _ _ _ _ heq₂ (ihE _ _ _ _ heq hw)
                    next heq₃ => simp at h
              next v₁ heq₂ hne => simp at h
              next er heq₂ => simp at h
              next heq₂ => simp at h
            next v₁ heq hne₁ hne₂ => simp at h
            next er heq => simp at h
            next heq => simp at h
      · -- expression lists
        intro env es env' vs h hw
        cases es with
        | nil =>
            simp only [interpExprList, interpGo] at h
            cases h
            exact hw
        | cons e rest =>
            simp only [interpExprList, interpGo] at h
            split at h
            next env₁ v₁ heq =>
              split at h
              next env₂ vs₂ heq₂ =>
                cases h
                exact ihEs _ _ _ _ heq₂ (ihE _ _ _ _ heq hw)
              next er heq₂ => simp at h
              next heq₂ => simp at h
            next er heq => simp at h
            next heq => simp at h

end Linger

/-! ## The claims -/

namespace Linger

/-- C1, counterexample: the claim states that a binding created by `let`
inside a block (including one shadowing an existing outer name) never
changes the parent environment.  The code refutes it: with a parent
binding `x = 5`, executing the block `{ let x = 10; x = 20; }` marks the
shadowing child binding `Reassigned`, and the merge writes the child's
`20` over the parent's `x` because the merge only checks the tag and the
parent's key — the parent ends the block with `x = 20`, not `5`. -/
theorem c1_counterexample :
    interpStatement 10
        (.mk [] [("x", (.Num (.Finite 5), .Initialized, .Mutable))])
        (.Block [.SLet "x" (.Num (.Finite 10)), .Assign "x" (.Num (.Finite 20))]) false
      = .ok (.mk [] [("x", (.Num (.Finite 20), .Reassigned, .Mutable))], .Nil, .Normal) ∧
    Value.Num (.Finite 20) ≠ Value.Num (.Finite 5) :=
  ⟨rfl, by
    intro h
    injection h with h₁
    injection h₁ with h₂
    norm_num at h₂⟩

/-- C1, amended: for every block the interpreter completes (normally or on
a `Return`/`Break`/`Continue` signal) against a well-formed parent
environment, there is a child environment such that the block's statements
ran in it, the reassigned-entry merge succeeded, no name absent from the
parent appears in the parent afterwards, and every name the parent already
bound ends with the child's final value for that name exactly when the
child's binding for the name is marked `Reassigned` at completion —
whether that binding is the inherited copy or a shadowing `let`/`const`
binding that was subsequently reassigned (the latter is what the original
claim ruled out and the code permits). -/
theorem c1_block_scoping (n : Nat) (env : Environment) (stmts : List Statement)
    (inLoop : Bool) (env' : Environment) (v : Value) (cf : ControlFlow)
    (hw : env.WF)
    (h : interpStatement (n + 1) env (.Block stmts) inLoop = .ok (env', v, cf)) :
    ∃ childEnv, interpStmtSeq n env .Nil stmts inLoop = .ok (childEnv, v, cf) ∧
      env.updateReassignedEntries childEnv = .ok env' ∧
      (∀ name, lookupA env.values name = none → lookupA env'.values name = none) ∧
      (∀ name e, lookupA env.values name = some e →
        lookupA env'.values name = some (mergeEntry e (lookupA childEnv.values name))) := by
  simp only [interpStatement, interpGo] at h
  split at h
  next blockEnv v₁ cf₁ heq =>
    split at h
    next env₂ heq₂ =>
      cases h
      have hcwf : blockEnv.WF :=
        (interp_WF_preservation n).2.1 _ _ _ _ _ _ _ heq hw
      obtain ⟨hnone, hsome⟩ := updateReassignedEntries_lookup hcwf heq₂
      exact ⟨blockEnv, heq, heq₂, hnone, hsome⟩
    next er heq₂ => simp at h
  next er heq => simp at h
  next heq => simp at h

/-- C1, witness for the amended theorem: a concrete run of
`{ x = 10; }` against a parent with `x = 5` mutable. -/
theorem c1_block_scoping_witness :
    ∃ childEnv,
      interpStmtSeq 9
          (.mk [] [("x", (.Num (.Finite 5), .Initialized, .Mutable))])
          .Nil [.Assign "x" (.Num (.Finite 10))] false
        = .ok (childEnv, .Nil, .Normal) ∧
      Environment.updateReassignedEntries
          (.mk [] [("x", (.Num (.Finite 5), .Initialized, .Mutable))]) childEnv
        = .ok (.mk [] [("x", (.Num (.Finite 10), .Reassigned, .Mutable))]) ∧
      (∀ name,
        lookupA (Environment.values
            (.mk [] [("x", (.Num (.Finite 5), .Initialized, .Mutable))])) name = none →
        lookupA (Environment.values
            (.mk [] [("x", (.Num (.Finite 10), .Reassigned, .Mutable))])) name = none) ∧
      (∀ name e,
        lookupA (Environment.values
            (.mk [] [("x", (.Num (.Finite 5), .Initialized, .Mutable))])) name = some e →
        lookupA (Environment.values
            (.mk [] [("x", (.Num (.Finite 10), .Reassigned, .Mutable))])) name
          = some (mergeEntry e (lookupA childEnv.values name))) :=
  c1_block_scoping 9 (.mk [] [("x", (.Num (.Finite 5), .Initialized, .Mutable))])
    [.Assign "x" (.Num (.Finite 10))] false
    (.mk [] [("x", (.Num (.Finite 10), .Reassigned, .Mutable))]) .Nil .Normal
    (by unfold Environment.WF; decide) rfl

/-- C2: a lambda evaluates to a procedure value capturing the defining
environment as it is at creation time, and a reassignment of the outer
environment after creation is invisible to the call: the spec's program
`let x = 5; let f = (n) -> { return n + x; }; x = 100; f(1)` computes `6`
(the captured `x = 5`), while the final environment holds `x = 100` and
the closure still carries the creation-time snapshot with `x = 5`. -/
theorem c2_closure_snapshot :
    (∀ (fuel : Nat) (env : Environment) (params : List String) (body : Statement),
      interpExpression (fuel + 1) env (.Lambda params body)
        = .ok (env, .Proc params body env)) ∧
    interpStmtSeq 20 (.mk [] []) .Nil
        [ .SLet "x" (.Num (.Finite 5))
        , .SLet "f" (.Lambda ["n"]
            (.Block [.Return (some (.Binary .Plus (.Var "n") (.Var "x")))]))
        , .Assign "x" (.Num (.Finite 100))
        , .SExpr (.Call (.Var "f") [.Num (.Finite 1)]) ] false
      = .ok (.mk []
          [ ("x", (.Num (.Finite 100), .Reassigned, .Mutable))
          , ("f", (.Proc ["n"]
              (.Block [.Return (some (.Binary .Plus (.Var "n") (.Var "x")))])
              (.mk [] [("x", (.Num (.Finite 5), .Initialized, .Mutable))]),
              .Initialized, .Mutable)) ],
          .Num (.Finite 6), .Normal) := by
  constructor
  · intro fuel env params body
    rfl
  · have h : interpStmtSeq 20 (.mk [] []) .Nil
        [ .SLet "x" (.Num (.Finite 5))
        , .SLet "f" (.Lambda ["n"]
            (.Block [.Return (some (.Binary .Plus (.Var "n") (.Var "x")))]))
        , .Assign "x" (.Num (.Finite 100))
        , .SExpr (.Call (.Var "f") [.Num (.Finite 1)]) ] false
      = .ok (.mk []
          [ ("x", (.Num (.Finite 100), .Reassigned, .Mutable))
          , ("f", (.Proc ["n"]
              (.Block [.Return (some (.Binary .Plus (.Var "n") (.Var "x")))])
              (.mk [] [("x", (.Num (.Finite 5), .Initialized, .Mutable))]),
              .Initialized, .Mutable)) ],
          .Num (.Finite (1 + 5)), .Normal) := rfl
    rw [show ((1 : ℚ) + 5) = 6 by norm_num] at h
    exact h

/-- C3, counterexample: the claim states that a call whose body runs to
the end without a `return` yields the nil value.  The code refutes it:
the `Expr::Call` arm returns the body's value for any control flow, and a
block's value is the value of its last executed statement, so calling a
zero-parameter lambda whose body is `{ 42; }` yields `42`, not nil. -/
theorem c3_counterexample :
    interpExpression 10 (.mk [] [])
        (.Call (.Lambda [] (.Block [.SExpr (.Num (.Finite 42))])) [])
      = .ok (.mk [] [], .Num (.Finite 42)) ∧
    Value.Num (.Finite 42) ≠ Value.Nil :=
  ⟨rfl, fun h => Value.noConfusion h⟩

/-- C3, amended: the call's result is the value the body's interpretation
computes, whatever the resulting control flow — for a body that runs to
the end without `return`, that is the block value, i.e. the value of the
last executed statement (nil only when that value is nil, e.g. for an
empty body or a trailing declaration). -/
theorem c3_call_result (n : Nat) (env : Environment) (fExpr : Expr) (args : List Expr)
    (env₁ : Environment) (params : List String) (body : Statement) (fEnv : Environment)
    (env₂ : Environment) (vals : List Value) (envB : Environment) (v : Value)
    (cf : ControlFlow)
    (hf : interpExpression n env fExpr = .ok (env₁, .Proc params body fEnv))
    (hlen : args.length = params.length)
    (hargs : interpExprList n env₁ args = .ok (env₂, vals))
    (hbody : interpStatement n
        (fEnv.extend (params.zip (vals.map
          (fun w => (w, AssignmentType.Initialized, Mutability.Constant))))) body false
      = .ok (envB, v, cf)) :
    interpExpression (n + 1) env (.Call fExpr args) = .ok (env₂, v) := by
  simp only [interpExpression, interpExprList, interpStatement] at hf hargs hbody
  simp only [interpExpression, interpGo]
  simp only [hf, hlen, ne_eq, not_true_eq_false, if_false, hargs, hbody]

/-- C3, witness for the amended theorem: the identity lambda applied to
`7` returns `7` through a `Return` control flow. -/
theorem c3_call_result_witness :
    interpExpression 6 (.mk [] [])
        (.Call (.Lambda ["a"] (.Block [.Return (some (.Var "a"))])) [.Num (.Finite 7)])
      = .ok (.mk [] [], .Num (.Finite 7)) :=
  c3_call_result 5 (.mk [] []) (.Lambda ["a"] (.Block [.Return (some (.Var "a"))]))
    [.Num (.Finite 7)] (.mk [] []) ["a"] (.Block [.Return (some (.Var "a"))]) (.mk [] [])
    (.mk [] []) [.Num (.Finite 7)]
    (.mk [] [("a", (.Num (.Finite 7), .Initialized, .Constant))]) (.Num (.Finite 7)) .Return
    rfl rfl rfl rfl

/-- C4, counterexample: the claim states that looking up a top-level
procedure yields a procedure value whose captured environment snapshot is
empty.  The code refutes it: `Environment::get` captures `self.clone()`,
so with a value binding `x = 1` in scope, the procedure value returned
for `f` captures that whole environment, whose value map is not empty. -/
theorem c4_counterexample :
    (Environment.mk [("f", (["p"], .Block []))]
        [("x", (.Num (.Finite 1), .Initialized, .Mutable))]).get "f"
      = .ok (.Proc ["p"] (.Block [])
          (.mk [("f", (["p"], .Block []))]
            [("x", (.Num (.Finite 1), .Initialized, .Mutable))])) ∧
    lookupA (Environment.values
        (.mk [("f", (["p"], .Block []))]
          [("x", (.Num (.Finite 1), .Initialized, .Mutable))])) "x"
      = some (.Num (.Finite 1), .Initialized, .Mutable) :=
  ⟨rfl, rfl⟩

/-- C4, amended: looking up a top-level procedure name that is not
shadowed by a value binding yields a procedure value whose captured
environment is a clone of the entire environment performing the lookup
(value bindings and procedure table included), not an empty one. -/
theorem c4_toplevel_capture (env : Environment) (key : String) (params : List String)
    (body : Statement)
    (hv : lookupA env.values key = none)
    (hp : lookupA env.topLevelProcedures key = some (params, body)) :
    env.get key = .ok (.Proc params body env) := by
  unfold Environment.get
  rw [hv, hp]

/-- C4, witness for the amended theorem. -/
theorem c4_toplevel_capture_witness :
    (Environment.mk [("g", (["a", "b"], .Block [.Return none]))]
        [("y", (.Str "s", .Initialized, .Constant))]).get "g"
      = .ok (.Proc ["a", "b"] (.Block [.Return none])
          (.mk [("g", (["a", "b"], .Block [.Return none]))]
            [("y", (.Str "s", .Initialized, .Constant))])) :=
  c4_toplevel_capture
    (.mk [("g", (["a", "b"], .Block [.Return none]))]
      [("y", (.Str "s", .Initialized, .Constant))])
    "g" ["a", "b"] (.Block [.Return none]) rfl rfl

end Linger

namespace Linger

/-- C5: once the callee evaluates to a procedure value, the call fails
with `ArgMismatch(name, expected, actual)` — `name` the callee's bare
variable name (or the `<lambda>` placeholder), `expected` the parameter
count, `actual` the argument count — exactly when the two counts differ;
when they agree, the call proceeds by evaluating all arguments
left-to-right in the caller's environment (as left by the callee
evaluation) and only then binding the parameters over the procedure's
captured environment and running the body. -/
theorem c5_call_arity (n : Nat) (env : Environment) (fExpr : Expr) (args : List Expr)
    (env₁ : Environment) (params : List String) (body : Statement) (fEnv : Environment)
    (hf : interpExpression n env fExpr = .ok (env₁, .Proc params body fEnv)) :
    (args.length ≠ params.length →
      interpExpression (n + 1) env (.Call fExpr args)
        = .err (.ArgMismatch (calleeName fExpr) params.length args.length)) ∧
    (args.length = params.length →
      interpExpression (n + 1) env (.Call fExpr args)
        = (match interpExprList n env₁ args with
           | .ok (env₂, argValues) =>
               (match interpStatement n
                   (fEnv.extend (params.zip (argValues.map
                     (fun w => (w, AssignmentType.Initialized, Mutability.Constant)))))
                   body false with
                | .ok (_, v, _) => .ok (env₂, v)
                | .err er => .err er
                | .nofuel => .nofuel)
           | .err er => .err er
           | .nofuel => .nofuel)) := by
  simp only [interpExpression] at hf
  constructor
  · intro hne
    simp only [interpExpression, interpGo]
    simp only [hf, hne, ne_eq, not_false_eq_true, if_true]
  · intro hlen
    simp only [interpExpression, interpExprList, interpStatement, interpGo]
    simp only [hf, hlen, ne_eq, not_true_eq_false, if_false]

/-- C5, witness: a two-parameter procedure called with one argument fails
with the mismatch naming the procedure (`g`, expected 2, got 1), both for
a named callee and for a bare lambda callee; with matching counts the
call reduces to argument evaluation followed by the body. -/
theorem c5_call_arity_witness :
    (interpExpression 6
        (.mk [] [("g", (.Proc ["a", "b"] (.Block []) (.mk [] []), .Initialized, .Mutable))])
        (.Call (.Var "g") [.Num (.Finite 1)])
      = .err (.ArgMismatch "g" 2 1)) ∧
    (interpExpression 6 (.mk [] [])
        (.Call (.Lambda ["a", "b"] (.Block [])) [.Num (.Finite 1)])
      = .err (.ArgMismatch "<lambda>" 2 1)) ∧
    (interpExpression 6 (.mk [] [])
        (.Call (.Lambda ["a"] (.Block [])) [.Num (.Finite 1)])
      = (match interpExprList 5 (.mk [] []) [.Num (.Finite 1)] with
         | .ok (env₂, argValues) =>
             (match interpStatement 5
                 (Environment.extend (.mk [] []) (["a"].zip (argValues.map
                   (fun w => (w, AssignmentType.Initialized, Mutability.Constant)))))
                 (.Block []) false with
              | .ok (_, v, _) => .ok (env₂, v)
              | .err er => .err er
              | .nofuel => .nofuel)
         | .err er => .err er
         | .nofuel => .nofuel)) :=
  ⟨(c5_call_arity 5
      (.mk [] [("g", (.Proc ["a", "b"] (.Block []) (.mk [] []), .Initialized, .Mutable))])
      (.Var "g") [.Num (.Finite 1)]
      (.mk [] [("g", (.Proc ["a", "b"] (.Block []) (.mk [] []), .Initialized, .Mutable))])
      ["a", "b"] (.Block []) (.mk [] []) rfl).1 (by decide),
   (c5_call_arity 5 (.mk [] []) (.Lambda ["a", "b"] (.Block [])) [.Num (.Finite 1)]
      (.mk [] []) ["a", "b"] (.Block []) (.mk [] []) rfl).1 (by decide),
   (c5_call_arity 5 (.mk [] []) (.Lambda ["a"] (.Block [])) [.Num (.Finite 1)]
      (.mk [] []) ["a"] (.Block []) (.mk [] []) rfl).2 rfl⟩

end Linger

namespace LingerParse

/-- C6: evaluation of the parser's builtin recognition at the claim's
inputs.  `check_builtin` recognizes the bare names `print` and `list`,
but — contrary to the claim, the spec, the interpreter's
`Builtin::IsEmpty`/`IsNil`/`Head`/`Rest` arms and the repository's own
`tests/builtins.rs` — returns `None` for `is_empty`, `is_nil`, `head`
and `rest`, so a call through any of those names becomes a user call
node, which the interpreter can only fail on with `UnknownVariable`. -/
theorem c6_builtin_recognition :
    checkBuiltin (.Var "print") = some .Print ∧
    checkBuiltin (.Var "list") = some .BList ∧
    checkBuiltin (.Var "is_empty") = none ∧
    checkBuiltin (.Var "is_nil") = none ∧
    checkBuiltin (.Var "head") = none ∧
    checkBuiltin (.Var "rest") = none ∧
    mkCallExpr (.Var "is_empty") [.PrimitiveCall .BList []]
      = .Call (.Var "is_empty") [.PrimitiveCall .BList []] ∧
    mkCallExpr (.Var "print") [.Str "x"] = .PrimitiveCall .Print [.Str "x"] ∧
    (∀ (callee : SugaredExpr) (args : List SugaredExpr),
      (∀ name, callee ≠ .Var name) → mkCallExpr callee args = .Call callee args) := by
  refine ⟨rfl, rfl, rfl, rfl, rfl, rfl, rfl, rfl, ?_⟩
  intro callee args hnv
  cases callee with
  | Var name => exact absurd rfl (hnv name)
  | Num n => rfl
  | EBool b => rfl
  | Str s => rfl
  | Binary op l r => rfl
  | Unary op e => rfl
  | PrimitiveCall b as => rfl
  | Call f as => rfl
  | Lambda ps b => rfl

end LingerParse

namespace LingerV1

/-- C8: desugaring a sugared `for(init, stop, step, body)` whose body is
the block the parser guarantees produces exactly
`block([desugar(init), while(desugar(stop), block(desugar(body) ++ [desugar(step)]))])`:
the desugared step statement is appended as the last statement of the
`while` body, after all of the user's desugared body statements. -/
theorem c8_for_desugar (init : SugaredStatement) (stop : SugaredExpr)
    (step : SugaredStatement) (bodyStmts : List SugaredStatement) :
    desugarStatement (.For init stop step (.Block bodyStmts)) =
      .Block [desugarStatement init,
              .While (desugarExpression stop)
                (.Block (desugarStatements bodyStmts ++ [desugarStatement step]))] := by
  simp only [desugarStatement]

end LingerV1

namespace Linger

/-- C9: neither generation has a divide-by-zero error branch.  In the
`i64` generation the `Div`/`Mod` arms never produce a `RuntimeError` on
numeric operands — a zero divisor is a host panic that aborts the whole
evaluation; in the `f64` generation evaluating `a / b` or `a % b` on any
two number literals always succeeds with `efDiv`/`efMod` of the operands,
and with a zero divisor that result is an infinity or NaN. -/
theorem c9_div_mod_zero :
    (∀ (a b : ℤ) (e : LingerV1.RuntimeError),
      LingerV1.interpDivArm (.Num a) (.Num b) ≠ .err e) ∧
    (∀ (a b : ℤ) (e : LingerV1.RuntimeError),
      LingerV1.interpModArm (.Num a) (.Num b) ≠ .err e) ∧
    (∀ a : ℤ, LingerV1.interpDivArm (.Num a) (.Num 0) = .hostPanic) ∧
    (∀ a : ℤ, LingerV1.interpModArm (.Num a) (.Num 0) = .hostPanic) ∧
    (∀ (n : Nat) (env : Environment) (a b : EF),
      interpExpression (n + 2) env (.Binary .Div (.Num a) (.Num b))
        = .ok (env, .Num (efDiv a b))) ∧
    (∀ (n : Nat) (env : Environment) (a b : EF),
      interpExpression (n + 2) env (.Binary .Mod (.Num a) (.Num b))
        = .ok (env, .Num (efMod a b))) ∧
    (∀ a : EF, (efDiv a (.Finite 0)).isInfOrNaN = true) ∧
    (∀ a : EF, (efMod a (.Finite 0)).isInfOrNaN = true) := by
  refine ⟨?_, ?_, ?_, ?_, ?_, ?_, ?_, ?_⟩
  · intro a b e
    unfold LingerV1.interpDivArm
    dsimp only
    split_ifs <;> simp
  · intro a b e
    unfold LingerV1.interpModArm
    dsimp only
    split_ifs <;> simp
  · intro a
    simp [LingerV1.interpDivArm]
  · intro a
    simp [LingerV1.interpModArm]
  · intro n env a b
    rfl
  · intro n env a b
    rfl
  · intro a
    cases a
    case Finite q => simp only [efDiv, EF.isInfOrNaN]; split_ifs <;> rfl
    case PInf => rfl
    case NInf => rfl
    case NaN => rfl
  · intro a
    cases a
    case Finite q => simp only [efMod, EF.isInfOrNaN]; split_ifs <;> rfl
    case PInf => rfl
    case NInf => rfl
    case NaN => rfl

/-- C10: every single-argument builtin (`is_empty`, `is_nil`, `head`,
`rest`) called with an argument count other than one fails through
`ensure_single_arg`, whose `ArgMismatch` always carries the name
`is_empty` whatever builtin was called, the actual argument count in the
expected-count position, and `1` in the actual-count position (so the
rendered "expected ... got ..." message swaps the two roles). -/
theorem c10_single_arg_mismatch (n : Nat) (env : Environment) (b : Builtin)
    (args : List Expr)
    (hb : b = .IsEmpty ∨ b = .IsNil ∨ b = .Head ∨ b = .Rest)
    (hlen : args.length ≠ 1) :
    interpExpression (n + 1) env (.PrimitiveCall b args)
      = .err (.ArgMismatch "is_empty" args.length 1) := by
  have hsingle : ensureSingleArg args = .error (.ArgMismatch "is_empty" args.length 1) := by
    match args, hlen with
    | [], _ => rfl
    | [a], hlen => exact absurd rfl hlen
    | a₁ :: a₂ :: rest, _ =>
        unfold ensureSingleArg
        rw [if_pos]
        simp [List.length]
  rcases hb with rfl | rfl | rfl | rfl <;>
    simp only [interpExpression, interpGo, hsingle]

/-- C10, witness: `head` called with two arguments fails with
`ArgMismatch("is_empty", 2, 1)`. -/
theorem c10_single_arg_mismatch_witness :
    interpExpression 6 (.mk [] [])
        (.PrimitiveCall .Head [.Num (.Finite 1), .Num (.Finite 2)])
      = .err (.ArgMismatch "is_empty" 2 1) :=
  c10_single_arg_mismatch 5 (.mk [] []) .Head [.Num (.Finite 1), .Num (.Finite 2)]
    (Or.inr (Or.inr (Or.inl rfl))) (by decide)

end Linger

namespace Linger

/-- C7: evaluation of an indexing expression.  With the base evaluating
to a list, an integer-valued numeric index within bounds returns the
element; a non-integer (or non-numeric, or infinite/NaN) index fails with
`ExpectedInteger`; an integer index that is negative or at least the
length fails with `IndexOutOfBounds`.  The same holds for a string base,
returning the one-character string.  A base that is neither a list nor a
string fails with `NotIndexable` (without evaluating the index).  The
`2 ^ 63` bounds make the `as i64` saturating cast exact. -/
theorem c7_indexing (n : Nat) (env : Environment) (base idx : Expr) :
    (∀ env₁ l, interpExpression n env base = .ok (env₁, .VList l) →
      ∀ env₂ iv, interpExpression n env₁ idx = .ok (env₂, iv) →
        (∀ q w, iv = .Num (.Finite q) → q.den = 1 → 0 ≤ q.num → q.num < 2 ^ 63 →
          l.get? q.num.toNat = some w →
          interpExpression (n + 1) env (.Index base idx) = .ok (env₂, w)) ∧
        (∀ q, iv = .Num q → efNe (efFract q) (.Finite 0) = true →
          interpExpression (n + 1) env (.Index base idx)
            = .err (.ExpectedInteger (.Num q))) ∧
        (iv.isNum = false →
          interpExpression (n + 1) env (.Index base idx) = .err (.ExpectedInteger iv)) ∧
        (∀ q, iv = .Num (.Finite q) → q.den = 1 → -(2 ^ 63) ≤ q.num → q.num < 2 ^ 63 →
          (q.num < 0 ∨ (l.length : ℤ) ≤ q.num) →
          interpExpression (n + 1) env (.Index base idx)
            = .err (.IndexOutOfBounds q.num))) ∧
    (∀ env₁ s, interpExpression n env base = .ok (env₁, .Str s) →
      ∀ env₂ iv, interpExpression n env₁ idx = .ok (env₂, iv) →
        (∀ q c, iv = .Num (.Finite q) → q.den = 1 → 0 ≤ q.num → q.num < 2 ^ 63 →
          s.data.get? q.num.toNat = some c →
          interpExpression (n + 1) env (.Index base idx)
            = .ok (env₂, .Str (String.singleton c))) ∧
        (∀ q, iv = .Num q → efNe (efFract q) (.Finite 0) = true →
          interpExpression (n + 1) env (.Index base idx)
            = .err (.ExpectedInteger (.Num q))) ∧
        (iv.isNum = false →
          interpExpression (n + 1) env (.Index base idx) = .err (.ExpectedInteger iv)) ∧
        (∀ q, iv = .Num (.Finite q) → q.den = 1 → -(2 ^ 63) ≤ q.num → q.num < 2 ^ 63 →
          (q.num < 0 ∨ (s.data.length : ℤ) ≤ q.num) →
          interpExpression (n + 1) env (.Index base idx)
            = .err (.IndexOutOfBounds q.num))) ∧
    (∀ env₁ bv, interpExpression n env base = .ok (env₁, bv) →
      bv.isList = false → bv.isStr = false →
      interpExpression (n + 1) env (.Index base idx) = .err (.NotIndexable bv)) := by
  refine ⟨?_, ?_, ?_⟩
  · intro env₁ l hb env₂ iv hi
    simp only [interpExpression] at hb hi
    refine ⟨?_, ?_, ?_, ?_⟩
    · intro q w hq hden hpos hupper hget
      subst hq
      have hneg : -(2 ^ 63) ≤ q.num := le_trans (by norm_num) hpos
      simp only [interpExpression, interpGo, hb, hi,
        efNe_fract_false_of_den_one hden, Bool.false_eq_true, if_false,
        efToI64_den_one hden hneg hupper]
      rw [if_neg (by omega), hget]
    · intro q hq htrue
      subst hq
      simp only [interpExpression, interpGo, hb, hi, htrue, if_true]
    · intro hnum
      cases iv with
      | Num q => simp [Value.isNum] at hnum
      | VBool b => simp only [interpExpression, interpGo, hb, hi]
      | Str s => simp only [interpExpression, interpGo, hb, hi]
      | VList l' => simp only [interpExpression, interpGo, hb, hi]
      | Proc p bd e => simp only [interpExpression, interpGo, hb, hi]
      | Nil => simp only [interpExpression, interpGo, hb, hi]
    · intro q hq hden hneg hupper hor
      subst hq
      simp only [interpExpression, interpGo, hb, hi,
        efNe_fract_false_of_den_one hden, Bool.false_eq_true, if_false,
        efToI64_den_one hden hneg hupper]
      rcases hor with hlt | hge
      · rw [if_pos hlt]
      · rw [if_neg (by omega)]
        have hnone : l.get? q.num.toNat = none := by
          apply List.get?_eq_none.mpr
          omega
        rw [hnone]
  · intro env₁ s hb env₂ iv hi
    simp only [interpExpression] at hb hi
    refine ⟨?_, ?_, ?_, ?_⟩
    · intro q c hq hden hpos hupper hget
      subst hq
      have hneg : -(2 ^ 63) ≤ q.num := le_trans (by norm_num) hpos
      simp only [interpExpression, interpGo, hb, hi,
        efNe_fract_false_of_den_one hden, Bool.false_eq_true, if_false,
        efToI64_den_one hden hneg hupper]
      rw [if_neg (by omega), hget]
    · intro q hq htrue
      subst hq
      simp only [interpExpression, interpGo, hb, hi, htrue, if_true]
    · intro hnum
      cases iv with
      | Num q => simp [Value.isNum] at hnum
      | VBool b => simp only [interpExpression, interpGo, hb, hi]
      | Str s' => simp only [interpExpression, interpGo, hb, hi]
      | VList l' => simp only [interpExpression, interpGo, hb, hi]
      | Proc p bd e => simp only [interpExpression, interpGo, hb, hi]
      | Nil => simp only [interpExpression, interpGo, hb, hi]
    · intro q hq hden hneg hupper hor
      subst hq
      simp only [interpExpression, interpGo, hb, hi,
        efNe_fract_false_of_den_one hden, Bool.false_eq_true, if_false,
        efToI64_den_one hden hneg hupper]
      rcases hor with hlt | hge
      · rw [if_pos hlt]
      · rw [if_neg (by omega)]
        have hnone : s.data.get? q.num.toNat = none := by
          apply List.get?_eq_none.mpr
          omega
        rw [hnone]
  · intro env₁ bv hb hnl hns
    simp only [interpExpression] at hb
    cases bv with
    | VList l => simp [Value.isList] at hnl
    | Str s => simp [Value.isStr] at hns
    | Num q => simp only [interpExpression, interpGo, hb]
    | VBool b => simp only [interpExpression, interpGo, hb]
    | Proc p bd e => simp only [interpExpression, interpGo, hb]
    | Nil => simp only [interpExpression, interpGo, hb]

/-- C7, witness: for the 3-element list `[1, 2, 3]`, index `2` yields the
third element, index `3` and index `-1` fail out-of-bounds, index `3.14`
fails as a non-integer, a string index fails as a non-integer, `"abc"[1]`
yields `"b"`, and indexing the number `0` is not indexable. -/
theorem c7_indexing_witness :
    (interpExpression 6 (.mk [] [])
        (.Index (.PrimitiveCall .BList [.Num (.Finite 1), .Num (.Finite 2), .Num (.Finite 3)])
          (.Num (.Finite 2)))
      = .ok (.mk [] [], .Num (.Finite 3))) ∧
    (interpExpression 6 (.mk [] [])
        (.Index (.PrimitiveCall .BList [.Num (.Finite 1), .Num (.Finite 2), .Num (.Finite 3)])
          (.Num (.Finite 3)))
      = .err (.IndexOutOfBounds 3)) ∧
    (interpExpression 6 (.mk [] [])
        (.Index (.PrimitiveCall .BList [.Num (.Finite 1), .Num (.Finite 2), .Num (.Finite 3)])
          (.Num (.Finite (-1))))
      = .err (.IndexOutOfBounds (-1))) ∧
    (interpExpression 6 (.mk [] [])
        (.Index (.PrimitiveCall .BList [.Num (.Finite 1), .Num (.Finite 2), .Num (.Finite 3)])
          (.Num (.Finite (mkRat 314 100))))
      = .err (.ExpectedInteger (.Num (.Finite (mkRat 314 100))))) ∧
    (interpExpression 6 (.mk [] [])
        (.Index (.PrimitiveCall .BList [.Num (.Finite 1), .Num (.Finite 2), .Num (.Finite 3)])
          (.Str "i"))
      = .err (.ExpectedInteger (.Str "i"))) ∧
    (interpExpression 6 (.mk [] []) (.Index (.Str "abc") (.Num (.Finite 1)))
      = .ok (.mk [] [], .Str (String.singleton 'b'))) ∧
    (interpExpression 6 (.mk [] []) (.Index (.Num (.Finite 0)) (.Num (.Finite 1)))
      = .err (.NotIndexable (.Num (.Finite 0)))) := by
  refine ⟨?_, ?_, ?_, ?_, ?_, ?_, ?_⟩
  · exact ((c7_indexing 5 (.mk [] [])
      (.PrimitiveCall .BList [.Num (.Finite 1), .Num (.Finite 2), .Num (.Finite 3)])
      (.Num (.Finite 2))).1
      (.mk [] []) [.Num (.Finite 1), .Num (.Finite 2), .Num (.Finite 3)] rfl
      (.mk [] []) (.Num (.Finite 2)) rfl).1 2 (.Num (.Finite 3)) rfl
      (by decide) (by decide) (by norm_num) rfl
  · exact (((c7_indexing 5 (.mk [] [])
      (.PrimitiveCall .BList [.Num (.Finite 1), .Num (.Finite 2), .Num (.Finite 3)])
      (.Num (.Finite 3))).1
      (.mk [] []) [.Num (.Finite 1), .Num (.Finite 2), .Num (.Finite 3)] rfl
      (.mk [] []) (.Num (.Finite 3)) rfl).2.2.2 3 rfl
      (by decide) (by norm_num) (by norm_num) (Or.inr (by decide)))
  · exact (((c7_indexing 5 (.mk [] [])
      (.PrimitiveCall .BList [.Num (.Finite 1), .Num (.Finite 2), .Num (.Finite 3)])
      (.Num (.Finite (-1)))).1
      (.mk [] []) [.Num (.Finite 1), .Num (.Finite 2), .Num (.Finite 3)] rfl
      (.mk [] []) (.Num (.Finite (-1))) rfl).2.2.2 (-1) rfl
      (by decide) (by norm_num) (by norm_num) (Or.inl (by decide)))
  · exact (((c7_indexing 5 (.mk [] [])
      (.PrimitiveCall .BList [.Num (.Finite 1), .Num (.Finite 2), .Num (.Finite 3)])
      (.Num (.Finite (mkRat 314 100)))).1
      (.mk [] []) [.Num (.Finite 1), .Num (.Finite 2), .Num (.Finite 3)] rfl
      (.mk [] []) (.Num (.Finite (mkRat 314 100))) rfl).2.1 (.Finite (mkRat 314 100)) rfl
      (efNe_fract_true_of_den_ne_one (by decide)))
  · exact (((c7_indexing 5 (.mk [] [])
      (.PrimitiveCall .BList [.Num (.Finite 1), .Num (.Finite 2), .Num (.Finite 3)])
      (.Str "i")).1
      (.mk [] []) [.Num (.Finite 1), .Num (.Finite 2), .Num (.Finite 3)] rfl
      (.mk [] []) (.Str "i") rfl).2.2.1 rfl)
  · exact ((c7_indexing 5 (.mk [] []) (.Str "abc") (.Num (.Finite 1))).2.1
      (.mk [] []) "abc" rfl (.mk [] []) (.Num (.Finite 1)) rfl).1 1 'b' rfl
      (by decide) (by decide) (by norm_num) rfl
  · exact (c7_indexing 5 (.mk [] []) (.Num (.Finite 0)) (.Num (.Finite 1))).2.2
      (.mk [] []) (.Num (.Finite 0)) rfl rfl rfl

end Linger
